import Mathlib

/-!
Verification of the Heun discrete scheduler
(`ppdiffusers/schedulers/scheduling_heun_discrete.py`).

The scheduler is embedded shallowly: numpy/paddle float tensors become exact
rational or real scalars and lists, elementwise tensor arithmetic becomes
scalar arithmetic, and python exceptions become an explicit error type
(`SchedErr`).  Python `IndexError` raised by indexing an empty match list is
`lookupError` (an `IndexError` is a `LookupError` in python).
-/

/-- Error outcomes of the scheduler operations, mirroring the python
exceptions raised by the source (`IndexError`/`LookupError` from
`index_for_timestep`, `NotImplementedError` from the constructor and from the
`sample` prediction type, `ValueError` from numpy and the prediction-type
dispatch, `TypeError` from arithmetic on a missing stored value). -/
inductive SchedErr where
  | lookupError : SchedErr
  | notImplemented : SchedErr
  | valueError : SchedErr
  | typeError : SchedErr
  deriving DecidableEq

/-- Cast a list of rationals to reals. -/
def castList (l : List ℚ) : List ℝ :=
  l.map (fun (q : ℚ) => (q : ℝ))

/-- `repeat_interleave(2)` on a 1-D tensor: every entry is repeated twice in
place. -/
def dup2 {α : Type _} : List α → List α
  | [] => []
  | x :: xs => x :: x :: dup2 xs

/-- The timestep duplication of `set_timesteps`:
`concat([timesteps[:1], timesteps[1:].repeat_interleave(2)])`. -/
def dupTimesteps {α : Type _} (ts : List α) : List α :=
  ts.take 1 ++ dup2 (ts.drop 1)

/-- The sigma duplication of `set_timesteps`:
`concat([sigmas[:1], sigmas[1:-1].repeat_interleave(2), sigmas[-1:]])`. -/
def dupSigmas {α : Type _} (sg : List α) : List α :=
  sg.take 1 ++ dup2 (sg.drop 1).dropLast ++ sg.drop (sg.length - 1)

/-- `np.linspace a b n`: `n` evenly spaced points from `a` to `b` inclusive
(`n = 1` gives `[a]`, matching numpy, because division by zero is zero). -/
def npLinspace {K : Type _} [Field K] (a b : K) (n : ℕ) : List K :=
  (List.range n).map (fun (i : ℕ) => a + (i : K) * ((b - a) / ((n : K) - 1)))

/-- The descending inference timesteps of `set_timesteps`:
`np.linspace(0, num_train_timesteps - 1, num_inference_steps)[::-1]`. -/
def buildTimestepsQ (numTrain numSteps : ℕ) : List ℚ :=
  (npLinspace 0 ((numTrain : ℚ) - 1) numSteps).reverse

/-- Running products, with `cumprodGo acc l` the products of `acc` with each
prefix of `l`. -/
def cumprodGo (acc : ℝ) : List ℝ → List ℝ
  | [] => []
  | x :: xs => (acc * x) :: cumprodGo (acc * x) xs

/-- `paddle.cumprod(l, 0)`. -/
def cumprod (l : List ℝ) : List ℝ :=
  cumprodGo 1 l

/-- The per-training-step sigmas `((1 - alphas_cumprod) / alphas_cumprod) ** 0.5`. -/
noncomputable def trainSigmasOf (ac : List ℝ) : List ℝ :=
  ac.map (fun a => Real.sqrt ((1 - a) / a))

/-- `np.interp(t, np.arange(0, len(fp)), fp)`: linear interpolation of the
data `fp` sitting on the integer grid `0, 1, ..., len fp - 1`, with queries
clamped to the ends of the grid. -/
noncomputable def interpGrid (fp : List ℝ) (t : ℚ) : ℝ :=
  if t ≤ 0 then fp.getD 0 0
  else if ((fp.length : ℚ) - 1) ≤ t then fp.getD (fp.length - 1) 0
  else
    fp.getD (Int.toNat ⌊t⌋) 0 +
      ((t - (⌊t⌋ : ℚ) : ℚ) : ℝ) *
        (fp.getD (Int.toNat ⌊t⌋ + 1) 0 - fp.getD (Int.toNat ⌊t⌋) 0)

/-- `alpha_bar` of `betas_for_alpha_bar`:
`cos((t + 0.008) / 1.008 * pi / 2) ** 2`. -/
noncomputable def alphaBarFn (t : ℝ) : ℝ :=
  Real.cos ((t + 0.008) / 1.008 * (Real.pi / 2)) ^ 2

/-- `betas_for_alpha_bar`: the Glide cosine schedule
`beta_i = min(1 - alpha_bar((i+1)/n) / alpha_bar(i/n), max_beta)`. -/
noncomputable def betasForAlphaBar (n : ℕ) (maxBeta : ℝ) : List ℝ :=
  (List.range n).map (fun (i : ℕ) =>
    min (1 - alphaBarFn (((i : ℝ) + 1) / (n : ℝ)) / alphaBarFn ((i : ℝ) / (n : ℝ))) maxBeta)

/-- The `paddle.Tensor.max()` of a sigma list (the list always holds the
appended terminal `0`, so folding from `0` computes the true maximum). -/
def listMax (l : List ℝ) : ℝ :=
  l.foldr max 0

/-- The constructor arguments of `HeunDiscreteScheduler.__init__`, stored by
`register_to_config`. -/
structure HeunConfig where
  num_train_timesteps : ℕ
  beta_start : ℚ
  beta_end : ℚ
  beta_schedule : String
  trained_betas : Option (List ℝ)
  prediction_type : String
  use_karras_sigmas : Bool

/-- The full mutable state of a `HeunDiscreteScheduler` instance: the
configuration, the derived training schedule, the current inference schedule,
and the cross-call integrator state of the Heun predictor/corrector. -/
structure HeunScheduler where
  config : HeunConfig
  betas : List ℝ
  alphas_cumprod : List ℝ
  sigmas : List ℝ
  timesteps : List ℝ
  num_inference_steps : ℤ
  init_noise_sigma : ℝ
  prev_derivative : Option ℝ
  dt : Option ℝ
  sample : Option ℝ

/-- `state_in_first_order`: `self.dt is None`. -/
def stateInFirstOrder (s : HeunScheduler) : Bool :=
  s.dt.isNone

/-- All positions of `t` inside `ts` — `(ts == t).nonzero()`. -/
def matchIdxs {α : Type _} [DecidableEq α] (ts : List α) (t : α) : List ℕ :=
  (List.range ts.length).filter (fun j => decide (ts.get? j = some t))

/-- `index_for_timestep`: resolve a timestep value to a position in the
schedule; the last matching position in first-order (predictor) state, the
first matching position in corrector state; `none` when there is no match
(python raises an `IndexError`, which is a `LookupError`). -/
noncomputable def indexForTimestep (s : HeunScheduler) (t : ℝ)
    (schedule_timesteps : Option (List ℝ)) : Option ℕ :=
  let ts := schedule_timesteps.getD s.timesteps
  if stateInFirstOrder s then (matchIdxs ts t).getLast? else (matchIdxs ts t).head?

/-- Python list indexing with wrap-around for negative indices
(`sigmas[i]` with `i` possibly `-1`). -/
def pyGetR (xs : List ℝ) (i : ℤ) : ℝ :=
  if i < 0 then xs.getD (xs.length - (-i).toNat) 0 else xs.getD i.toNat 0

/-- Resolution of the optional `num_train_timesteps` argument of
`set_timesteps`: python `num_train_timesteps or self.config.num_train_timesteps`
(`0` is falsy and also falls back to the configuration). -/
def resolveNumTrain (nt : Option ℕ) (cfg : HeunConfig) : ℕ :=
  match nt with
  | none => cfg.num_train_timesteps
  | some n => if n = 0 then cfg.num_train_timesteps else n

/-- `_convert_to_karras`: the Karras power-law sigma ramp with `rho = 7`. -/
noncomputable def convertToKarras (inSigmas : List ℝ) (numSteps : ℕ) : List ℝ :=
  let sigmaMin := (inSigmas.getLast?).getD 0
  let sigmaMax := (inSigmas.head?).getD 0
  let rho : ℝ := 7
  (npLinspace (0 : ℝ) 1 numSteps).map (fun ramp =>
    (sigmaMax ^ ((1 : ℝ) / rho) + ramp * (sigmaMin ^ ((1 : ℝ) / rho) - sigmaMax ^ ((1 : ℝ) / rho))) ^ rho)

/-- `_sigma_to_t`: invert the log-sigma table by bracketing the query between
the last table entry below it and the next one, then linearly interpolating
the fractional index (the bracket start is clamped to `len - 2`). -/
noncomputable def sigmaToT (σ : ℝ) (logSigmas : List ℝ) : ℝ :=
  let logSigma := Real.log σ
  let L := logSigmas.length
  let lowIdx :=
    min (((List.range L).filter (fun j => decide (logSigmas.getD j 0 ≤ logSigma))).getLast?.getD 0)
      (L - 2)
  let highIdx := lowIdx + 1
  let low := logSigmas.getD lowIdx 0
  let high := logSigmas.getD highIdx 0
  let w := min 1 (max 0 ((low - logSigma) / (low - high)))
  (1 - w) * (lowIdx : ℝ) + w * (highIdx : ℝ)

/-- `set_timesteps`: rebuild the inference schedule (descending linspace
timesteps, interpolated sigmas, optional Karras reparametrization, terminal
sigma `0`, 2nd-order duplication) and clear the stored derivative and `dt`.
`np.linspace` rejects a negative sample count and `np.interp` rejects an empty
sample-point array; both surface as `valueError`. -/
noncomputable def setTimesteps (s : HeunScheduler) (num_inference_steps : ℤ)
    (num_train : Option ℕ) : Except SchedErr HeunScheduler :=
  let T := resolveNumTrain num_train s.config
  if num_inference_steps < 0 then Except.error SchedErr.valueError
  else
    let ts0 : List ℚ := buildTimestepsQ T num_inference_steps.toNat
    let trainS := trainSigmasOf s.alphas_cumprod
    if trainS.length = 0 then Except.error SchedErr.valueError
    else
      let logSigmas := trainS.map Real.log
      let sig0 := ts0.map (fun t => interpGrid trainS t)
      let sigK := if s.config.use_karras_sigmas then convertToKarras sig0 num_inference_steps.toNat else sig0
      let tsF : List ℝ :=
        if s.config.use_karras_sigmas then
          (convertToKarras sig0 num_inference_steps.toNat).map (fun σ => sigmaToT σ logSigmas)
        else castList ts0
      let sigBase := sigK ++ [(0 : ℝ)]
      let newSig := dupSigmas sigBase
      Except.ok { s with
        num_inference_steps := num_inference_steps,
        sigmas := newSig,
        init_noise_sigma := listMax newSig,
        timesteps := dupTimesteps tsF,
        prev_derivative := none,
        dt := none }

/-- The beta-schedule construction of `__init__`: explicit betas bypass
generation; otherwise `linear`, `scaled_linear` and `squaredcos_cap_v2` are
generated and anything else raises `NotImplementedError`. -/
noncomputable def betasOf (cfg : HeunConfig) : Except SchedErr (List ℝ) :=
  match cfg.trained_betas with
  | some tb => Except.ok tb
  | none =>
    if cfg.beta_schedule = "linear" then
      Except.ok (castList (npLinspace cfg.beta_start cfg.beta_end cfg.num_train_timesteps))
    else if cfg.beta_schedule = "scaled_linear" then
      Except.ok ((npLinspace (Real.sqrt (cfg.beta_start : ℝ)) (Real.sqrt (cfg.beta_end : ℝ))
        cfg.num_train_timesteps).map (fun x => x ^ 2))
    else if cfg.beta_schedule = "squaredcos_cap_v2" then
      Except.ok (betasForAlphaBar cfg.num_train_timesteps 0.999)
    else Except.error SchedErr.notImplemented

/-- `HeunDiscreteScheduler.__init__`: derive betas, alphas and their running
product, then call `set_timesteps(num_train_timesteps, num_train_timesteps)`. -/
noncomputable def mkScheduler (cfg : HeunConfig) : Except SchedErr HeunScheduler :=
  match betasOf cfg with
  | Except.error e => Except.error e
  | Except.ok betas =>
    let alphas := betas.map (fun b => 1 - b)
    let ac := cumprod alphas
    setTimesteps
      { config := cfg, betas := betas, alphas_cumprod := ac, sigmas := [], timesteps := [],
        num_inference_steps := 0, init_noise_sigma := 0,
        prev_derivative := none, dt := none, sample := none }
      (cfg.num_train_timesteps : ℤ) (some cfg.num_train_timesteps)

/-- The predicted fully denoised sample of `step`, by prediction type:
`epsilon` and `v_prediction` are supported, `sample` raises
`NotImplementedError` and anything else raises `ValueError`. -/
noncomputable def predOriginalSample (predictionType : String)
    (sigma_input model_output s0 : ℝ) : Except SchedErr ℝ :=
  if predictionType = "epsilon" then
    Except.ok (s0 - sigma_input * model_output)
  else if predictionType = "v_prediction" then
    Except.ok (model_output * (-sigma_input / Real.sqrt (sigma_input ^ 2 + 1)) +
      s0 / (sigma_input ^ 2 + 1))
  else if predictionType = "sample" then Except.error SchedErr.notImplemented
  else Except.error SchedErr.valueError

/-- `scale_model_input`: divide the sample by `sqrt(sigma ** 2 + 1)` at the
resolved position. -/
noncomputable def scaleModelInput (s : HeunScheduler) (sample : ℝ) (timestep : ℝ) : Option ℝ :=
  (indexForTimestep s timestep none).map
    (fun i => sample / Real.sqrt ((s.sigmas.getD i 0) ^ 2 + 1))

/-- `step`: one Heun predictor or corrector sub-step.  The predictor phase
(`dt` empty) takes an Euler step and stores `(derivative, dt, sample)`;
the corrector phase averages the stored derivative with a fresh one at
`sigma_next`, steps from the stored sample over the stored `dt`, and clears
the stored state. -/
noncomputable def step (s : HeunScheduler) (model_output : ℝ) (timestep : ℝ)
    (sample : ℝ) : Except SchedErr (ℝ × HeunScheduler) :=
  match indexForTimestep s timestep none with
  | none => Except.error SchedErr.lookupError
  | some step_index =>
    let firstOrder := stateInFirstOrder s
    let sigma : ℝ :=
      if firstOrder then s.sigmas.getD step_index 0
      else pyGetR s.sigmas ((step_index : ℤ) - 1)
    let sigma_next : ℝ :=
      if firstOrder then s.sigmas.getD (step_index + 1) 0
      else s.sigmas.getD step_index 0
    let gamma : ℝ := 0
    let sigma_hat := sigma * (gamma + 1)
    let sigma_input := if firstOrder then sigma_hat else sigma_next
    match predOriginalSample s.config.prediction_type sigma_input model_output sample with
    | Except.error e => Except.error e
    | Except.ok pred_original_sample =>
      if firstOrder then
        let derivative := (sample - pred_original_sample) / sigma_hat
        let dt := sigma_next - sigma_hat
        Except.ok (sample + derivative * dt,
          { s with prev_derivative := some derivative, dt := some dt, sample := some sample })
      else
        match s.prev_derivative, s.dt, s.sample with
        | some prevD, some dt0, some stored =>
          let derivative := (prevD + (sample - pred_original_sample) / sigma_next) / 2
          Except.ok (stored + derivative * dt0,
            { s with prev_derivative := none, dt := none, sample := none })
        | _, _, _ => Except.error SchedErr.typeError

/-- `add_noise`: resolve each supplied timestep against the stored schedule,
then return `original + noise * sigma` elementwise.  The scheduler state is
not modified (the model returns only the noisy values). -/
noncomputable def addNoise (s : HeunScheduler) (original noise : ℝ)
    (timesteps : List ℝ) : Option (List ℝ) :=
  match timesteps.mapM (fun t => indexForTimestep s t (some s.timesteps)) with
  | none => none
  | some idxs => some (idxs.map (fun i => original + noise * s.sigmas.getD i 0))

/-- Run a sequence of `step` calls, each with `(model_output, timestep,
sample)` inputs, threading the scheduler state; `none` as soon as any call
fails. -/
noncomputable def runSteps (s : HeunScheduler) : List (ℝ × ℝ × ℝ) → Option HeunScheduler
  | [] => some s
  | (mo, t, x) :: rest =>
    match step s mo t x with
    | Except.ok (_, s1) => runSteps s1 rest
    | Except.error _ => none

/-- The base (pre-duplication) sigma sequence rebuilt by `set_timesteps`:
interpolated training sigmas at the descending timesteps, with the terminal
`0` appended. -/
noncomputable def rebuiltBase (ac : List ℝ) (T n : ℕ) : List ℝ :=
  (buildTimestepsQ T n).map (fun t => interpGrid (trainSigmasOf ac) t) ++ [(0 : ℝ)]

/-- A small concrete configuration (linear schedule, epsilon prediction,
Karras reparametrization off) used to exercise the theorems on concrete
inputs. -/
def demoCfg : HeunConfig :=
  { num_train_timesteps := 4, beta_start := 1/2, beta_end := 1/2,
    beta_schedule := "linear", trained_betas := none,
    prediction_type := "epsilon", use_karras_sigmas := false }

/-- A concrete scheduler state in predictor phase with a duplicated
three-entry timestep schedule and four sigmas. -/
noncomputable def demoStepState : HeunScheduler :=
  { config := demoCfg, betas := [], alphas_cumprod := castList [1/2, 1/3, 1/4, 1/5],
    sigmas := castList [3, 2, 1, 0], timesteps := castList [7, 5, 5],
    num_inference_steps := 0, init_noise_sigma := 0,
    prev_derivative := none, dt := none, sample := none }

/-- A concrete scheduler state in corrector phase (pending stored derivative,
`dt` and sample), sharing the schedule shape produced by `set_timesteps`. -/
noncomputable def demoCorrState : HeunScheduler :=
  { config := demoCfg, betas := [], alphas_cumprod := castList [1/2, 1/3],
    sigmas := dupSigmas (castList [2, 1] ++ [(0 : ℝ)]),
    timesteps := dupTimesteps (castList [5, 3]),
    num_inference_steps := 0, init_noise_sigma := 0,
    prev_derivative := some 1, dt := some 1, sample := some 1 }

/-- A concrete scheduler record holding only a training schedule, used to
exercise `set_timesteps` on concrete inputs. -/
noncomputable def demoSched : HeunScheduler :=
  { config := demoCfg, betas := [], alphas_cumprod := castList [1/2, 1/3, 1/4, 1/5],
    sigmas := [], timesteps := [], num_inference_steps := 0, init_noise_sigma := 0,
    prev_derivative := none, dt := none, sample := none }

/-- A configuration supplying explicit betas whose length (2) differs from
`num_train_timesteps` (3). -/
noncomputable def mismatchCfg : HeunConfig :=
  { num_train_timesteps := 3, beta_start := 1/2, beta_end := 1/2,
    beta_schedule := "linear", trained_betas := some (castList [1/2, 1/3]),
    prediction_type := "epsilon", use_karras_sigmas := false }

/-- A configuration with an unrecognized beta schedule kind and no explicit
betas. -/
def badSchedCfg : HeunConfig :=
  { num_train_timesteps := 3, beta_start := 1/2, beta_end := 1/2,
    beta_schedule := "cosine", trained_betas := none,
    prediction_type := "epsilon", use_karras_sigmas := false }

/-! ### Structural lemmas about the duplication transforms -/

theorem dup2_length {α : Type _} (l : List α) : (dup2 l).length = 2 * l.length := by
  induction l with
  | nil => simp [dup2]
  | cons x xs ih => simp [dup2, ih]; omega

theorem dup2_get? {α : Type _} (l : List α) (j : ℕ) :
    (dup2 l).get? j = l.get? (j / 2) := by
  induction l generalizing j with
  | nil => simp [dup2]
  | cons x xs ih =>
    match j with
    | 0 => simp [dup2]
    | 1 => simp [dup2]
    | n + 2 =>
      have h2 : (n + 2) / 2 = n / 2 + 1 := by omega
      rw [h2]
      show (dup2 xs).get? n = (x :: xs).get? (n / 2 + 1)
      rw [List.get?_cons_succ]
      exact ih n

theorem dup2_map {α β : Type _} (f : α → β) (l : List α) :
    dup2 (l.map f) = (dup2 l).map f := by
  induction l with
  | nil => simp [dup2]
  | cons x xs ih => simp [dup2, ih]

theorem dupTimesteps_nil {α : Type _} : dupTimesteps ([] : List α) = [] := rfl

theorem dupTimesteps_get? {α : Type _} (l : List α) (j : ℕ) :
    (dupTimesteps l).get? j = l.get? ((j + 1) / 2) := by
  cases l with
  | nil => simp [dupTimesteps, dup2]
  | cons x xs =>
    show ((x :: xs).take 1 ++ dup2 ((x :: xs).drop 1)).get? j = (x :: xs).get? ((j + 1) / 2)
    cases j with
    | zero => simp
    | succ n =>
      have h1 : ((x :: xs).take 1 ++ dup2 ((x :: xs).drop 1)).get? (n + 1) =
          (dup2 xs).get? n := by simp
      have h2 : (n + 1 + 1) / 2 = n / 2 + 1 := by omega
      rw [h1, h2, List.get?_cons_succ, dup2_get?]

theorem dupTimesteps_length {α : Type _} (l : List α) (h : l ≠ []) :
    (dupTimesteps l).length = 2 * l.length - 1 := by
  obtain ⟨y, ys, rfl⟩ := List.exists_cons_of_ne_nil h
  show ((y :: ys).take 1 ++ dup2 ((y :: ys).drop 1)).length = 2 * (y :: ys).length - 1
  simp [dup2_length]
  omega

theorem mem_dupTimesteps {α : Type _} {l : List α} {t : α} :
    t ∈ dupTimesteps l ↔ t ∈ l := by
  rw [List.mem_iff_get?, List.mem_iff_get?]
  constructor
  · rintro ⟨j, hj⟩
    exact ⟨(j + 1) / 2, by rw [← dupTimesteps_get?]; exact hj⟩
  · rintro ⟨k, hk⟩
    refine ⟨2 * k, ?_⟩
    rw [dupTimesteps_get?]
    have : (2 * k + 1) / 2 = k := by omega
    rw [this]; exact hk

theorem dupSigmas_singleton {α : Type _} (a : α) : dupSigmas [a] = [a, a] := rfl

theorem dupSigmas_concat {α : Type _} (ys : List α) (a : α) (h : ys ≠ []) :
    dupSigmas (ys ++ [a]) = dupTimesteps ys ++ [a] := by
  obtain ⟨y, ys', rfl⟩ := List.exists_cons_of_ne_nil h
  show (((y :: ys') ++ [a]).take 1 ++ dup2 (((y :: ys') ++ [a]).drop 1).dropLast ++
      ((y :: ys') ++ [a]).drop (((y :: ys') ++ [a]).length - 1)) =
      ((y :: ys').take 1 ++ dup2 ((y :: ys').drop 1)) ++ [a]
  have hdrop : ((y :: ys') ++ [a]).drop (((y :: ys') ++ [a]).length - 1) = [a] := by
    have hlen : ((y :: ys') ++ [a]).length - 1 = (y :: ys').length := by simp
    rw [hlen, List.drop_left]
  have hmid : (((y :: ys') ++ [a]).drop 1).dropLast = ys' := by
    simp [List.dropLast_concat]
  rw [hdrop, hmid]
  simp [List.append_assoc]

theorem dupSigmas_concat_get? {α : Type _} (ys : List α) (a : α) (h : ys ≠ [])
    (j : ℕ) (hj : j < 2 * ys.length) :
    (dupSigmas (ys ++ [a])).get? j = (ys ++ [a]).get? ((j + 1) / 2) := by
  rw [dupSigmas_concat ys a h]
  have hys : 1 ≤ ys.length := List.length_pos.mpr h
  have hlen : (dupTimesteps ys).length = 2 * ys.length - 1 := dupTimesteps_length ys h
  by_cases hcase : j < 2 * ys.length - 1
  · rw [List.get?_append (by omega), dupTimesteps_get?]
    have hhalf : (j + 1) / 2 < ys.length := by omega
    rw [List.get?_append (by omega)]
  · have hj' : j = 2 * ys.length - 1 := by omega
    subst hj'
    have hhalf : (2 * ys.length - 1 + 1) / 2 = ys.length := by omega
    rw [hhalf, List.get?_append_right (by omega), List.get?_concat_length]
    have : 2 * ys.length - 1 - (dupTimesteps ys).length = 0 := by omega
    rw [this]
    rfl

theorem dupSigmas_concat_length {α : Type _} (ys : List α) (a : α) (h : ys ≠ []) :
    (dupSigmas (ys ++ [a])).length = 2 * ys.length := by
  rw [dupSigmas_concat ys a h]
  have := dupTimesteps_length ys h
  have hys : 1 ≤ ys.length := List.length_pos.mpr h
  simp [this]
  omega

theorem dupSigmas_concat_getLast? {α : Type _} (ys : List α) (a : α) (h : ys ≠ []) :
    (dupSigmas (ys ++ [a])).getLast? = some a := by
  rw [dupSigmas_concat ys a h, List.getLast?_concat]

/-! ### Characterizing the match positions of a duplicated schedule -/

theorem mem_matchIdxs {α : Type _} [DecidableEq α] {ts : List α} {t : α} {j : ℕ} :
    j ∈ matchIdxs ts t ↔ ts.get? j = some t := by
  unfold matchIdxs
  simp only [List.mem_filter, List.mem_range, decide_eq_true_eq]
  constructor
  · rintro ⟨_, h⟩; exact h
  · intro h
    refine ⟨?_, h⟩
    rcases List.get?_eq_some.mp h with ⟨hlt, _⟩
    exact hlt

theorem matchIdxs_eq_nil_iff {α : Type _} [DecidableEq α] {ts : List α} {t : α} :
    matchIdxs ts t = [] ↔ t ∉ ts := by
  constructor
  · intro h hmem
    rcases List.mem_iff_get?.mp hmem with ⟨j, hj⟩
    have : j ∈ matchIdxs ts t := mem_matchIdxs.mpr hj
    rw [h] at this
    exact absurd this (List.not_mem_nil j)
  · intro h
    rcases List.eq_nil_or_concat (matchIdxs ts t) with hnil | ⟨l2, b, hb⟩
    · exact hnil
    · exfalso
      have hbmem : b ∈ matchIdxs ts t := by rw [hb]; simp
      exact h (List.mem_iff_get?.mpr ⟨b, mem_matchIdxs.mp hbmem⟩)

theorem filter_range_half_zero (m : ℕ) (hm : 1 ≤ m) :
    ((List.range m).filter fun j => decide ((j + 1) / 2 = 0)) = [0] := by
  induction m with
  | zero => omega
  | succ k ih =>
    rw [List.range_succ, List.filter_append]
    by_cases hk : k = 0
    · subst hk; rfl
    · rw [ih (by omega)]
      have : ((k + 1) / 2 = 0) = False := by simp; omega
      simp [this]

theorem filter_range_half_prefix (i n : ℕ) (hn : n ≤ 2 * i - 1) (hi : 1 ≤ i) :
    ((List.range n).filter fun j => decide ((j + 1) / 2 = i)) = [] := by
  rw [List.filter_eq_nil]
  intro a ha
  rw [List.mem_range] at ha
  simp only [decide_eq_true_eq]
  omega

theorem filter_range_half_top (i : ℕ) (hi : 1 ≤ i) :
    ((List.range (2 * i)).filter fun j => decide ((j + 1) / 2 = i)) = [2 * i - 1] := by
  have h1 : 2 * i = (2 * i - 1) + 1 := by omega
  rw [h1, List.range_succ, List.filter_append,
    filter_range_half_prefix i (2 * i - 1) (le_refl _) hi]
  have : ((2 * i - 1 + 1) / 2 = i) = True := by simp; omega
  simp [this]

theorem filter_range_half_two (i m : ℕ) (hi : 1 ≤ i) (hm : 2 * i < m) :
    ((List.range m).filter fun j => decide ((j + 1) / 2 = i)) = [2 * i - 1, 2 * i] := by
  induction m with
  | zero => omega
  | succ k ih =>
    rw [List.range_succ, List.filter_append]
    by_cases hk : k = 2 * i
    · subst hk
      rw [filter_range_half_top i hi]
      have : ((2 * i + 1) / 2 = i) = True := by simp; omega
      simp [this]
    · rw [ih (by omega)]
      have : ((k + 1) / 2 = i) = False := by simp; omega
      simp [this]

theorem matchIdxs_of_halfIndex {α : Type _} [DecidableEq α] (l base : List α)
    (hnd : base.Nodup) (hget : ∀ j < l.length, l.get? j = base.get? ((j + 1) / 2))
    (i : ℕ) (t : α) (ht : base.get? i = some t) :
    matchIdxs l t = (List.range l.length).filter fun j => decide ((j + 1) / 2 = i) := by
  unfold matchIdxs
  apply List.filter_congr
  intro j hj
  rw [List.mem_range] at hj
  rw [decide_eq_decide, hget j hj]
  constructor
  · intro h
    rcases List.get?_eq_some.mp h with ⟨hlt, _⟩
    exact List.get?_inj hlt hnd (h.trans ht.symm)
  · intro h; rw [h]; exact ht

theorem matchIdxs_dupTimesteps {α : Type _} [DecidableEq α] (base : List α)
    (hnd : base.Nodup) (i : ℕ) (t : α) (ht : base.get? i = some t) :
    matchIdxs (dupTimesteps base) t = if i = 0 then [0] else [2 * i - 1, 2 * i] := by
  have hi : i < base.length := by
    rcases List.get?_eq_some.mp ht with ⟨hlt, _⟩
    exact hlt
  have hne : base ≠ [] := by
    intro h; subst h; simp at hi
  have hlen : (dupTimesteps base).length = 2 * base.length - 1 := dupTimesteps_length base hne
  rw [matchIdxs_of_halfIndex (dupTimesteps base) base hnd
    (fun j _ => dupTimesteps_get? base j) i t ht, hlen]
  by_cases h0 : i = 0
  · subst h0
    rw [if_pos rfl]
    exact filter_range_half_zero _ (by omega)
  · rw [if_neg h0]
    exact filter_range_half_two i _ (by omega) (by omega)

theorem matchIdxs_dupSigmas_concat {α : Type _} [DecidableEq α] (ys : List α) (a : α)
    (hys : ys ≠ []) (hnd : (ys ++ [a]).Nodup) (i : ℕ) (t : α)
    (ht : (ys ++ [a]).get? i = some t) :
    matchIdxs (dupSigmas (ys ++ [a])) t =
      if i = 0 then [0] else if i = ys.length then [2 * i - 1] else [2 * i - 1, 2 * i] := by
  have hi : i < ys.length + 1 := by
    rcases List.get?_eq_some.mp ht with ⟨hlt, _⟩
    simpa using hlt
  have hys1 : 1 ≤ ys.length := List.length_pos.mpr hys
  have hlen : (dupSigmas (ys ++ [a])).length = 2 * ys.length :=
    dupSigmas_concat_length ys a hys
  rw [matchIdxs_of_halfIndex (dupSigmas (ys ++ [a])) (ys ++ [a]) hnd
    (fun j hj => dupSigmas_concat_get? ys a hys j (by omega)) i t ht, hlen]
  by_cases h0 : i = 0
  · subst h0
    rw [if_pos rfl]
    exact filter_range_half_zero _ (by omega)
  · rw [if_neg h0]
    by_cases htop : i = ys.length
    · subst htop
      rw [if_pos rfl]
      exact filter_range_half_top _ (by omega)
    · rw [if_neg htop]
      exact filter_range_half_two i _ (by omega) (by omega)

/-! ### Transfer between the rational and real views of a schedule -/

theorem castList_length (l : List ℚ) : (castList l).length = l.length := by
  simp [castList]

theorem castList_get? (l : List ℚ) (j : ℕ) :
    (castList l).get? j = (l.get? j).map (fun (q : ℚ) => (q : ℝ)) := by
  unfold castList
  rw [List.get?_map]

theorem mem_castList {l : List ℚ} {v : ℚ} : ((v : ℝ)) ∈ castList l ↔ v ∈ l := by
  unfold castList
  rw [List.mem_map]
  constructor
  · rintro ⟨q, hq, hcast⟩
    have : q = v := by exact_mod_cast hcast
    exact this ▸ hq
  · intro hv; exact ⟨v, hv, rfl⟩

theorem castList_nodup {l : List ℚ} (h : l.Nodup) : (castList l).Nodup :=
  List.Nodup.map Rat.cast_injective h

theorem matchIdxs_castList (l : List ℚ) (v : ℚ) :
    matchIdxs (castList l) ((v : ℝ)) = matchIdxs l v := by
  unfold matchIdxs
  rw [castList_length]
  apply List.filter_congr
  intro j _
  rw [decide_eq_decide, castList_get?]
  cases hq : l.get? j with
  | none => simp
  | some q =>
    simp only [Option.map_some', Option.some.injEq, Rat.cast_inj]

theorem dupTimesteps_castList (l : List ℚ) :
    dupTimesteps (castList l) = castList (dupTimesteps l) := by
  unfold dupTimesteps castList
  rw [← List.map_take, ← List.map_drop, dup2_map, List.map_append]

/-! ### The linspace timestep grid -/

theorem npLinspace_length {K : Type _} [Field K] (a b : K) (n : ℕ) :
    (npLinspace a b n).length = n := by
  simp [npLinspace]

theorem npLinspace_get? {K : Type _} [Field K] (a b : K) (n : ℕ) (j : ℕ) (hj : j < n) :
    (npLinspace a b n).get? j = some (a + (j : K) * ((b - a) / ((n : K) - 1))) := by
  unfold npLinspace
  rw [List.get?_map, List.get?_eq_get (by simpa using hj)]
  simp

theorem npLinspace_mem_le {K : Type _} [LinearOrderedField K] {a b : K} {n : ℕ}
    (hab : a ≤ b) {x : K} (hx : x ∈ npLinspace a b n) : a ≤ x ∧ x ≤ b := by
  unfold npLinspace at hx
  rw [List.mem_map] at hx
  obtain ⟨i, hi, rfl⟩ := hx
  rw [List.mem_range] at hi
  rcases Nat.lt_or_ge n 2 with hn | hn
  · have : n = 1 := by omega
    subst this
    norm_num
    exact hab
  · have hd : (0 : K) ≤ (b - a) / ((n : K) - 1) := by
      apply div_nonneg (by linarith)
      have : (2 : K) ≤ (n : K) := by exact_mod_cast hn
      linarith
    constructor
    · have : (0 : K) ≤ (i : K) * ((b - a) / ((n : K) - 1)) :=
        mul_nonneg (by positivity) hd
      linarith
    · have hin : (i : K) ≤ (n : K) - 1 := by
        have : (i : K) ≤ (n : K) - 1 ↔ (i : K) + 1 ≤ (n : K) := by constructor <;> intro <;> linarith
        rw [this]
        exact_mod_cast hi
      have hn1 : (0 : K) < (n : K) - 1 := by
        have : (2 : K) ≤ (n : K) := by exact_mod_cast hn
        linarith
      have hmul : (i : K) * ((b - a) / ((n : K) - 1)) ≤ ((n : K) - 1) * ((b - a) / ((n : K) - 1)) :=
        mul_le_mul_of_nonneg_right hin hd
      have heq : ((n : K) - 1) * ((b - a) / ((n : K) - 1)) = b - a := by
        field_simp
      linarith [heq ▸ hmul]

theorem npLinspace_pairwise_lt {K : Type _} [LinearOrderedField K] {a b : K} {n : ℕ}
    (hab : a < b) : (npLinspace a b n).Pairwise (· < ·) := by
  unfold npLinspace
  rw [List.pairwise_map]
  rcases Nat.lt_or_ge n 2 with hn | hn
  · interval_cases n <;> simp [show List.range 1 = [0] from rfl]
  · have hd : (0 : K) < (b - a) / ((n : K) - 1) := by
      apply div_pos (by linarith)
      have : (2 : K) ≤ (n : K) := by exact_mod_cast hn
      linarith
    have : (List.range n).Pairwise (· < ·) := List.pairwise_lt_range n
    apply this.imp
    intro i j hij
    have hij' : (i : K) < (j : K) := by exact_mod_cast hij
    have := mul_lt_mul_of_pos_right hij' hd
    linarith

theorem npLinspace_pairwise_le {K : Type _} [LinearOrderedField K] {a b : K} {n : ℕ}
    (hab : a ≤ b) : (npLinspace a b n).Pairwise (· ≤ ·) := by
  unfold npLinspace
  rw [List.pairwise_map]
  rcases Nat.lt_or_ge n 2 with hn | hn
  · interval_cases n <;> simp [show List.range 1 = [0] from rfl]
  · have hd : (0 : K) ≤ (b - a) / ((n : K) - 1) := by
      apply div_nonneg (by linarith)
      have : (2 : K) ≤ (n : K) := by exact_mod_cast hn
      linarith
    have : (List.range n).Pairwise (· < ·) := List.pairwise_lt_range n
    apply this.imp
    intro i j hij
    have hij' : (i : K) ≤ (j : K) := by exact_mod_cast Nat.le_of_lt hij
    have := mul_le_mul_of_nonneg_right hij' hd
    linarith

theorem buildTimestepsQ_length (T N : ℕ) : (buildTimestepsQ T N).length = N := by
  simp [buildTimestepsQ, npLinspace_length]

theorem buildTimestepsQ_pairwise_gt {T N : ℕ} (hT : 2 ≤ T) :
    (buildTimestepsQ T N).Pairwise (· > ·) := by
  unfold buildTimestepsQ
  rw [List.pairwise_reverse]
  apply npLinspace_pairwise_lt
  have : (2 : ℚ) ≤ (T : ℚ) := by exact_mod_cast hT
  linarith

theorem buildTimestepsQ_pairwise_ge {T N : ℕ} (hT : 1 ≤ T) :
    (buildTimestepsQ T N).Pairwise (· ≥ ·) := by
  unfold buildTimestepsQ
  rw [List.pairwise_reverse]
  apply npLinspace_pairwise_le
  have : (1 : ℚ) ≤ (T : ℚ) := by exact_mod_cast hT
  linarith

theorem buildTimestepsQ_nodup {T N : ℕ} (hT : 2 ≤ T) :
    (buildTimestepsQ T N).Nodup :=
  (buildTimestepsQ_pairwise_gt hT).imp (fun h => ne_of_gt h)

theorem buildTimestepsQ_mem_le {T N : ℕ} (hT : 1 ≤ T) {x : ℚ}
    (hx : x ∈ buildTimestepsQ T N) : 0 ≤ x ∧ x ≤ (T : ℚ) - 1 := by
  unfold buildTimestepsQ at hx
  rw [List.mem_reverse] at hx
  apply npLinspace_mem_le _ hx
  have : (1 : ℚ) ≤ (T : ℚ) := by exact_mod_cast hT
  linarith

theorem buildTimestepsQ_self (T : ℕ) :
    buildTimestepsQ T T = ((List.range T).map (fun (i : ℕ) => (i : ℚ))).reverse := by
  unfold buildTimestepsQ npLinspace
  congr 1
  apply List.map_congr_left
  intro i hi
  rw [List.mem_range] at hi
  rcases Nat.lt_or_ge T 2 with hT | hT
  · interval_cases T
    · omega
    · have : i = 0 := by omega
      subst this
      norm_num
  · have hne : (T : ℚ) - 1 ≠ 0 := by
      have : (2 : ℚ) ≤ (T : ℚ) := by exact_mod_cast hT
      intro h
      linarith
    rw [sub_zero, div_self hne]
    ring

/-! ### Duplication preserves a reflexive pairwise order -/

theorem dupTimesteps_pairwise {α : Type _} {r : α → α → Prop} (hrefl : ∀ a, r a a)
    {l : List α} (h : l.Pairwise r) : (dupTimesteps l).Pairwise r := by
  rw [List.pairwise_iff_get] at h ⊢
  intro i j hij
  have hgi := dupTimesteps_get? l i
  have hgj := dupTimesteps_get? l j
  rw [List.get?_eq_get i.isLt] at hgi
  rw [List.get?_eq_get j.isLt] at hgj
  have hilt : ((i : ℕ) + 1) / 2 < l.length := by
    rcases List.get?_eq_some.mp hgi.symm with ⟨hl, _⟩
    exact hl
  have hjlt : ((j : ℕ) + 1) / 2 < l.length := by
    rcases List.get?_eq_some.mp hgj.symm with ⟨hl, _⟩
    exact hl
  rw [List.get?_eq_get hilt] at hgi
  rw [List.get?_eq_get hjlt] at hgj
  have hvi := Option.some.inj hgi
  have hvj := Option.some.inj hgj
  rw [hvi, hvj]
  by_cases heq : ((i : ℕ) + 1) / 2 = ((j : ℕ) + 1) / 2
  · have : l.get ⟨((i : ℕ) + 1) / 2, hilt⟩ = l.get ⟨((j : ℕ) + 1) / 2, hjlt⟩ := by
      congr 1
      exact Fin.ext heq
    rw [this]
    exact hrefl _
  · have hij' : (i : ℕ) < (j : ℕ) := hij
    have hlt : ((i : ℕ) + 1) / 2 < ((j : ℕ) + 1) / 2 := by omega
    exact h ⟨_, hilt⟩ ⟨_, hjlt⟩ hlt

/-! ### Interpolated sigmas: formula, strict monotonicity, positivity -/

theorem getD_eq_get {α : Type _} (l : List α) (d : α) {i : ℕ} (h : i < l.length) :
    l.getD i d = l.get ⟨i, h⟩ := by
  rw [List.getD_eq_get?, List.get?_eq_get h]
  rfl

theorem pairwise_lt_getD {l : List ℝ} (h : l.Pairwise (· < ·)) {i j : ℕ}
    (hij : i < j) (hj : j < l.length) : l.getD i 0 < l.getD j 0 := by
  have hi : i < l.length := lt_trans hij hj
  rw [getD_eq_get l 0 hi, getD_eq_get l 0 hj]
  exact List.pairwise_iff_get.mp h ⟨i, hi⟩ ⟨j, hj⟩ hij

theorem pairwise_le_getD {l : List ℝ} (h : l.Pairwise (· < ·)) {i j : ℕ}
    (hij : i ≤ j) (hj : j < l.length) : l.getD i 0 ≤ l.getD j 0 := by
  rcases lt_or_eq_of_le hij with hlt | heq
  · exact le_of_lt (pairwise_lt_getD h hlt hj)
  · rw [heq]

theorem interpGrid_formula (fp : List ℝ) (t : ℚ) (h0 : 0 ≤ t)
    (h1 : t ≤ (fp.length : ℚ) - 1) :
    interpGrid fp t = fp.getD (Int.toNat ⌊t⌋) 0 +
      ((t - (⌊t⌋ : ℚ) : ℚ) : ℝ) *
        (fp.getD (Int.toNat ⌊t⌋ + 1) 0 - fp.getD (Int.toNat ⌊t⌋) 0) := by
  have hL : 1 ≤ fp.length := by
    by_contra hc
    push_neg at hc
    have : fp.length = 0 := by omega
    rw [this] at h1
    norm_num at h1
    linarith
  unfold interpGrid
  by_cases hz : t ≤ 0
  · rw [if_pos hz]
    have ht0 : t = 0 := le_antisymm hz h0
    subst ht0
    norm_num
  · rw [if_neg hz]
    by_cases htop : ((fp.length : ℚ) - 1) ≤ t
    · rw [if_pos htop]
      have hteq : t = (fp.length : ℚ) - 1 := le_antisymm h1 htop
      have hcast : t = ((fp.length - 1 : ℕ) : ℚ) := by
        rw [hteq, Nat.cast_sub hL]
        norm_num
      have hfloor : ⌊t⌋ = ((fp.length - 1 : ℕ) : ℤ) := by
        rw [hcast, Int.floor_natCast]
      have htn : Int.toNat ⌊t⌋ = fp.length - 1 := by
        rw [hfloor]
        exact Int.toNat_natCast _
      have hw : t - ((⌊t⌋ : ℚ)) = 0 := by
        rw [hfloor, hcast]
        push_cast
        ring
      rw [htn, hw]
      push_cast
      ring
    · rw [if_neg htop]

theorem floor_toNat_le {t : ℚ} (h0 : 0 ≤ t) :
    ((Int.toNat ⌊t⌋ : ℚ)) ≤ t ∧ t < (Int.toNat ⌊t⌋ : ℚ) + 1 := by
  have hnn : 0 ≤ ⌊t⌋ := Int.floor_nonneg.mpr h0
  have hcast : ((Int.toNat ⌊t⌋ : ℚ)) = ((⌊t⌋ : ℤ) : ℚ) := by
    exact_mod_cast Int.toNat_of_nonneg hnn
  rw [hcast]
  exact ⟨Int.floor_le t, Int.lt_floor_add_one t⟩

theorem interpGrid_strict_mono (fp : List ℝ) (hfp : fp.Pairwise (· < ·))
    {s t : ℚ} (h0 : 0 ≤ s) (hst : s < t) (h1 : t ≤ (fp.length : ℚ) - 1) :
    interpGrid fp s < interpGrid fp t := by
  have ht0 : 0 ≤ t := le_trans h0 (le_of_lt hst)
  have hL2 : 2 ≤ fp.length := by
    by_contra hc
    push_neg at hc
    have hle1 : fp.length ≤ 1 := by omega
    have hcast : (fp.length : ℚ) ≤ 1 := by exact_mod_cast hle1
    have h01 : 0 < t := lt_of_le_of_lt h0 hst
    linarith
  have hs1 : s ≤ (fp.length : ℚ) - 1 := le_of_lt (lt_of_lt_of_le hst h1)
  obtain ⟨hsl, hsu⟩ := floor_toNat_le h0
  obtain ⟨htl, htu⟩ := floor_toNat_le ht0
  have hsq : ((Int.toNat ⌊s⌋ : ℚ)) = ((⌊s⌋ : ℤ) : ℚ) := by
    exact_mod_cast Int.toNat_of_nonneg (Int.floor_nonneg.mpr h0)
  have htq : ((Int.toNat ⌊t⌋ : ℚ)) = ((⌊t⌋ : ℤ) : ℚ) := by
    exact_mod_cast Int.toNat_of_nonneg (Int.floor_nonneg.mpr ht0)
  have hisit : Int.toNat ⌊s⌋ ≤ Int.toNat ⌊t⌋ := by
    have := Int.floor_le_floor (le_of_lt hst)
    omega
  have hitL : Int.toNat ⌊t⌋ < fp.length := by
    have hq : ((Int.toNat ⌊t⌋ : ℚ)) + 1 ≤ (fp.length : ℚ) := by
      have := le_trans htl h1
      linarith
    exact_mod_cast hq
  have hws0 : (0 : ℝ) ≤ ((s - ((⌊s⌋ : ℤ) : ℚ) : ℚ) : ℝ) := by
    have : (0 : ℚ) ≤ s - ((⌊s⌋ : ℤ) : ℚ) := by
      rw [← hsq]
      linarith
    exact_mod_cast this
  have hws1 : ((s - ((⌊s⌋ : ℤ) : ℚ) : ℚ) : ℝ) < 1 := by
    have : s - ((⌊s⌋ : ℤ) : ℚ) < 1 := by
      rw [← hsq]
      linarith
    exact_mod_cast this
  have hwt0 : (0 : ℝ) ≤ ((t - ((⌊t⌋ : ℤ) : ℚ) : ℚ) : ℝ) := by
    have : (0 : ℚ) ≤ t - ((⌊t⌋ : ℤ) : ℚ) := by
      rw [← htq]
      linarith
    exact_mod_cast this
  rw [interpGrid_formula fp s h0 hs1, interpGrid_formula fp t ht0 h1]
  rcases eq_or_lt_of_le hisit with heq | hlt
  · -- same grid cell: the difference is (t - s) times a positive slope
    have hfeq : ⌊s⌋ = ⌊t⌋ := by
      have hs0 : 0 ≤ ⌊s⌋ := Int.floor_nonneg.mpr h0
      have ht0' : 0 ≤ ⌊t⌋ := Int.floor_nonneg.mpr ht0
      omega
    have hisL : Int.toNat ⌊s⌋ + 1 < fp.length := by
      by_contra hc
      push_neg at hc
      have hq : (fp.length : ℚ) - 1 ≤ ((Int.toNat ⌊s⌋ : ℚ)) := by
        have h1' : (fp.length : ℚ) ≤ ((Int.toNat ⌊s⌋ : ℚ)) + 1 := by exact_mod_cast hc
        linarith
      have hts' : t ≤ ((Int.toNat ⌊s⌋ : ℚ)) := le_trans h1 hq
      linarith
    have hd : 0 < fp.getD (Int.toNat ⌊s⌋ + 1) 0 - fp.getD (Int.toNat ⌊s⌋) 0 := by
      have := pairwise_lt_getD hfp (Nat.lt_succ_self (Int.toNat ⌊s⌋)) hisL
      linarith
    rw [← heq, ← hfeq]
    have hws : ((s - ((⌊s⌋ : ℤ) : ℚ) : ℚ) : ℝ) < ((t - ((⌊s⌋ : ℤ) : ℚ) : ℚ) : ℝ) := by
      have : s - ((⌊s⌋ : ℤ) : ℚ) < t - ((⌊s⌋ : ℤ) : ℚ) := by linarith
      exact_mod_cast this
    nlinarith [hws, hd]
  · -- different cells: pass through the cell boundary values
    have hisL : Int.toNat ⌊s⌋ + 1 < fp.length := by omega
    have hd : 0 < fp.getD (Int.toNat ⌊s⌋ + 1) 0 - fp.getD (Int.toNat ⌊s⌋) 0 := by
      have := pairwise_lt_getD hfp (Nat.lt_succ_self (Int.toNat ⌊s⌋)) hisL
      linarith
    have hup : fp.getD (Int.toNat ⌊s⌋) 0 +
        ((s - ((⌊s⌋ : ℤ) : ℚ) : ℚ) : ℝ) *
          (fp.getD (Int.toNat ⌊s⌋ + 1) 0 - fp.getD (Int.toNat ⌊s⌋) 0) <
        fp.getD (Int.toNat ⌊s⌋ + 1) 0 := by
      nlinarith [hws1, hd]
    have hmid : fp.getD (Int.toNat ⌊s⌋ + 1) 0 ≤ fp.getD (Int.toNat ⌊t⌋) 0 :=
      pairwise_le_getD hfp (by omega) hitL
    have hlow : fp.getD (Int.toNat ⌊t⌋) 0 ≤ fp.getD (Int.toNat ⌊t⌋) 0 +
        ((t - ((⌊t⌋ : ℤ) : ℚ) : ℚ) : ℝ) *
          (fp.getD (Int.toNat ⌊t⌋ + 1) 0 - fp.getD (Int.toNat ⌊t⌋) 0) := by
      rcases Nat.lt_or_ge (Int.toNat ⌊t⌋ + 1) fp.length with hit1 | hit1
      · have hd2 : 0 ≤ fp.getD (Int.toNat ⌊t⌋ + 1) 0 - fp.getD (Int.toNat ⌊t⌋) 0 := by
          have := pairwise_lt_getD hfp (Nat.lt_succ_self (Int.toNat ⌊t⌋)) hit1
          linarith
        nlinarith [hd2, hwt0]
      · -- topmost point: the weight is zero
        have hw0 : t - ((⌊t⌋ : ℤ) : ℚ) = 0 := by
          have h1' : t ≤ ((Int.toNat ⌊t⌋ : ℚ)) := by
            have hq : (fp.length : ℚ) - 1 ≤ ((Int.toNat ⌊t⌋ : ℚ)) := by
              have : (fp.length : ℚ) ≤ ((Int.toNat ⌊t⌋ : ℚ)) + 1 := by exact_mod_cast hit1
              linarith
            exact le_trans h1 hq
          rw [← htq]
          linarith
        rw [hw0]
        norm_num
    calc fp.getD (Int.toNat ⌊s⌋) 0 +
        ((s - ((⌊s⌋ : ℤ) : ℚ) : ℚ) : ℝ) *
          (fp.getD (Int.toNat ⌊s⌋ + 1) 0 - fp.getD (Int.toNat ⌊s⌋) 0) <
        fp.getD (Int.toNat ⌊s⌋ + 1) 0 := hup
    _ ≤ fp.getD (Int.toNat ⌊t⌋) 0 := hmid
    _ ≤ _ := hlow

theorem interpGrid_pos (fp : List ℝ) (hfp : fp.Pairwise (· < ·))
    (hpos : ∀ i < fp.length, 0 < fp.getD i 0) {t : ℚ} (h0 : 0 ≤ t)
    (h1 : t ≤ (fp.length : ℚ) - 1) : 0 < interpGrid fp t := by
  have hL : 1 ≤ fp.length := by
    by_contra hc
    push_neg at hc
    have h0' : fp.length = 0 := by omega
    rw [h0'] at h1
    norm_num at h1
    linarith
  have hitL : Int.toNat ⌊t⌋ < fp.length := by
    obtain ⟨htl, _⟩ := floor_toNat_le h0
    have hq : ((Int.toNat ⌊t⌋ : ℚ)) + 1 ≤ (fp.length : ℚ) := by
      have := le_trans htl h1
      linarith
    exact_mod_cast hq
  have htq : ((Int.toNat ⌊t⌋ : ℚ)) = ((⌊t⌋ : ℤ) : ℚ) := by
    exact_mod_cast Int.toNat_of_nonneg (Int.floor_nonneg.mpr h0)
  have hwt0 : (0 : ℝ) ≤ ((t - ((⌊t⌋ : ℤ) : ℚ) : ℚ) : ℝ) := by
    obtain ⟨htl, _⟩ := floor_toNat_le h0
    have : (0 : ℚ) ≤ t - ((⌊t⌋ : ℤ) : ℚ) := by
      rw [← htq]
      linarith
    exact_mod_cast this
  rw [interpGrid_formula fp t h0 h1]
  have hbase := hpos (Int.toNat ⌊t⌋) hitL
  rcases Nat.lt_or_ge (Int.toNat ⌊t⌋ + 1) fp.length with hit1 | hit1
  · have hd2 : 0 ≤ fp.getD (Int.toNat ⌊t⌋ + 1) 0 - fp.getD (Int.toNat ⌊t⌋) 0 := by
      have := pairwise_lt_getD hfp (Nat.lt_succ_self (Int.toNat ⌊t⌋)) hit1
      linarith
    nlinarith [hd2, hwt0, hbase]
  · have hw0 : t - ((⌊t⌋ : ℤ) : ℚ) = 0 := by
      obtain ⟨htl, _⟩ := floor_toNat_le h0
      have h1' : t ≤ ((Int.toNat ⌊t⌋ : ℚ)) := by
        have hq : (fp.length : ℚ) - 1 ≤ ((Int.toNat ⌊t⌋ : ℚ)) := by
          have : (fp.length : ℚ) ≤ ((Int.toNat ⌊t⌋ : ℚ)) + 1 := by exact_mod_cast hit1
          linarith
        exact le_trans h1 hq
      rw [← htq]
      linarith
    rw [hw0]
    have hz : (((0 : ℚ)) : ℝ) = 0 := by norm_num
    rw [hz, zero_mul, add_zero]
    exact hbase

/-! ### The cumulative alpha product and the training sigmas -/

theorem cumprodGo_length (acc : ℝ) (l : List ℝ) :
    (cumprodGo acc l).length = l.length := by
  induction l generalizing acc with
  | nil => rfl
  | cons x xs ih => simp [cumprodGo, ih]

theorem cumprod_length (l : List ℝ) : (cumprod l).length = l.length :=
  cumprodGo_length 1 l

theorem cumprodGo_mem {acc : ℝ} {l : List ℝ} (hacc : 0 < acc)
    (hl : ∀ x ∈ l, 0 < x ∧ x < 1) :
    ∀ y ∈ cumprodGo acc l, 0 < y ∧ y < acc := by
  induction l generalizing acc with
  | nil => intro y hy; exact absurd hy (List.not_mem_nil y)
  | cons x xs ih =>
    intro y hy
    obtain ⟨hx0, hx1⟩ := hl x (List.mem_cons_self x xs)
    have hax : 0 < acc * x := mul_pos hacc hx0
    have haxlt : acc * x < acc := mul_lt_of_lt_one_right hacc hx1
    rcases List.mem_cons.mp hy with hhead | htail
    · rw [hhead]
      exact ⟨hax, haxlt⟩
    · have := ih hax (fun z hz => hl z (List.mem_cons_of_mem x hz)) y htail
      exact ⟨this.1, lt_trans this.2 haxlt⟩

theorem cumprodGo_pairwise_gt {acc : ℝ} {l : List ℝ} (hacc : 0 < acc)
    (hl : ∀ x ∈ l, 0 < x ∧ x < 1) :
    (cumprodGo acc l).Pairwise (· > ·) := by
  induction l generalizing acc with
  | nil => exact List.Pairwise.nil
  | cons x xs ih =>
    obtain ⟨hx0, hx1⟩ := hl x (List.mem_cons_self x xs)
    have hax : 0 < acc * x := mul_pos hacc hx0
    rw [cumprodGo, List.pairwise_cons]
    constructor
    · intro y hy
      exact (cumprodGo_mem hax (fun z hz => hl z (List.mem_cons_of_mem x hz)) y hy).2
    · exact ih hax (fun z hz => hl z (List.mem_cons_of_mem x hz))

theorem cumprod_mem_of_unit {l : List ℝ} (hl : ∀ x ∈ l, 0 < x ∧ x < 1) :
    ∀ y ∈ cumprod l, 0 < y ∧ y < 1 :=
  cumprodGo_mem one_pos hl

theorem cumprod_pairwise_gt {l : List ℝ} (hl : ∀ x ∈ l, 0 < x ∧ x < 1) :
    (cumprod l).Pairwise (· > ·) :=
  cumprodGo_pairwise_gt one_pos hl

theorem trainSigmasOf_length (ac : List ℝ) :
    (trainSigmasOf ac).length = ac.length := by
  unfold trainSigmasOf
  rw [List.length_map]

theorem trainSigmasOf_nonneg (ac : List ℝ) :
    ∀ y ∈ trainSigmasOf ac, 0 ≤ y := by
  intro y hy
  unfold trainSigmasOf at hy
  rw [List.mem_map] at hy
  obtain ⟨a, _, rfl⟩ := hy
  exact Real.sqrt_nonneg _

theorem trainSigmasOf_pairwise_lt {ac : List ℝ} (hpair : ac.Pairwise (· > ·))
    (h01 : ∀ x ∈ ac, 0 < x ∧ x < 1) :
    (trainSigmasOf ac).Pairwise (· < ·) := by
  unfold trainSigmasOf
  rw [List.pairwise_map]
  apply hpair.imp_of_mem
  intro a b ha hb hab
  obtain ⟨ha0, ha1⟩ := h01 a ha
  obtain ⟨hb0, hb1⟩ := h01 b hb
  apply Real.sqrt_lt_sqrt
  · apply div_nonneg (by linarith) (le_of_lt ha0)
  · rw [div_lt_div_iff ha0 hb0]
    nlinarith

theorem trainSigmasOf_getD_pos {ac : List ℝ} (h01 : ∀ x ∈ ac, 0 < x ∧ x < 1) :
    ∀ i < (trainSigmasOf ac).length, 0 < (trainSigmasOf ac).getD i 0 := by
  intro i hi
  rw [getD_eq_get _ 0 hi]
  have hmem : (trainSigmasOf ac).get ⟨i, hi⟩ ∈ trainSigmasOf ac := List.get_mem _ _ _
  unfold trainSigmasOf at hmem
  rw [List.mem_map] at hmem
  obtain ⟨a, ha, heq⟩ := hmem
  rw [show (trainSigmasOf ac).get ⟨i, hi⟩ = Real.sqrt ((1 - a) / a) from heq.symm]
  obtain ⟨ha0, ha1⟩ := h01 a ha
  rw [Real.sqrt_pos]
  exact div_pos (by linarith) ha0

/-! ### Unfolding `set_timesteps` on the non-Karras path -/

theorem setTimesteps_neg (s : HeunScheduler) (N : ℤ) (nt : Option ℕ) (hN : N < 0) :
    setTimesteps s N nt = Except.error SchedErr.valueError := by
  unfold setTimesteps
  rw [if_pos hN]

theorem setTimesteps_eq_ok (s : HeunScheduler) (N : ℤ) (nt : Option ℕ)
    (hk : s.config.use_karras_sigmas = false) (hN : 0 ≤ N)
    (hts : (trainSigmasOf s.alphas_cumprod).length ≠ 0) :
    setTimesteps s N nt = Except.ok { s with
      num_inference_steps := N,
      sigmas := dupSigmas (rebuiltBase s.alphas_cumprod (resolveNumTrain nt s.config) N.toNat),
      init_noise_sigma :=
        listMax (dupSigmas (rebuiltBase s.alphas_cumprod (resolveNumTrain nt s.config) N.toNat)),
      timesteps := dupTimesteps (castList (buildTimestepsQ (resolveNumTrain nt s.config) N.toNat)),
      prev_derivative := none,
      dt := none } := by
  unfold setTimesteps rebuiltBase
  rw [if_neg (not_lt.mpr hN)]
  simp only [hk, Bool.false_eq_true, if_false, if_neg hts]

/-! ### Evaluating `step` in each phase -/

theorem stateInFirstOrder_true {s : HeunScheduler} (h : s.dt = none) :
    stateInFirstOrder s = true := by
  unfold stateInFirstOrder
  rw [h]
  rfl

theorem stateInFirstOrder_false {s : HeunScheduler} {d : ℝ} (h : s.dt = some d) :
    stateInFirstOrder s = false := by
  unfold stateInFirstOrder
  rw [h]
  rfl

theorem indexForTimestep_eq_none {s : HeunScheduler} {t : ℝ} (h : t ∉ s.timesteps) :
    indexForTimestep s t none = none := by
  unfold indexForTimestep
  have hmi : matchIdxs s.timesteps t = [] := matchIdxs_eq_nil_iff.mpr h
  simp [hmi]

theorem step_predictor_eval (s : HeunScheduler) (mo t x : ℝ) (i : ℕ) (p : ℝ)
    (hidx : indexForTimestep s t none = some i) (hfo : s.dt = none)
    (hp : predOriginalSample s.config.prediction_type (s.sigmas.getD i 0) mo x = Except.ok p) :
    step s mo t x = Except.ok
      (x + (x - p) / s.sigmas.getD i 0 * (s.sigmas.getD (i + 1) 0 - s.sigmas.getD i 0),
       { s with prev_derivative := some ((x - p) / s.sigmas.getD i 0),
                dt := some (s.sigmas.getD (i + 1) 0 - s.sigmas.getD i 0),
                sample := some x }) := by
  have hfo' : stateInFirstOrder s = true := stateInFirstOrder_true hfo
  have harg : s.sigmas.getD i 0 * ((0 : ℝ) + 1) = s.sigmas.getD i 0 := by ring
  unfold step
  simp only [hidx, hfo', if_true, harg, hp]

theorem step_corrector_eval (s : HeunScheduler) (mo t x : ℝ) (i : ℕ) (p d0 dt0 x0 : ℝ)
    (hidx : indexForTimestep s t none = some i)
    (hdt : s.dt = some dt0) (hpd : s.prev_derivative = some d0) (hsm : s.sample = some x0)
    (hp : predOriginalSample s.config.prediction_type (s.sigmas.getD i 0) mo x = Except.ok p) :
    step s mo t x = Except.ok
      (x0 + (d0 + (x - p) / s.sigmas.getD i 0) / 2 * dt0,
       { s with prev_derivative := none, dt := none, sample := none }) := by
  have hfo' : stateInFirstOrder s = false := stateInFirstOrder_false hdt
  unfold step
  simp only [hidx, hfo', Bool.false_eq_true, if_false, hp, hdt, hpd, hsm]

theorem step_ok_phase {s : HeunScheduler} {mo t x r : ℝ} {s1 : HeunScheduler}
    (h : step s mo t x = Except.ok (r, s1)) :
    s1.dt.isNone = !s.dt.isNone ∧ s1.prev_derivative.isNone = s1.dt.isNone := by
  unfold step at h
  cases hidx : indexForTimestep s t none with
  | none =>
    rw [hidx] at h
    simp at h
  | some i =>
    rw [hidx] at h
    cases hdt : s.dt with
    | none =>
      have hfo' : stateInFirstOrder s = true := stateInFirstOrder_true hdt
      simp only [hfo', if_true] at h
      cases hpred : predOriginalSample s.config.prediction_type
          (s.sigmas.getD i 0 * (0 + 1)) mo x with
      | error e =>
        rw [hpred] at h
        simp at h
      | ok p =>
        rw [hpred] at h
        simp only [Except.ok.injEq, Prod.mk.injEq] at h
        obtain ⟨_, hs1⟩ := h
        rw [← hs1]
        constructor <;> rfl
    | some d =>
      have hfo' : stateInFirstOrder s = false := stateInFirstOrder_false hdt
      simp only [hfo', Bool.false_eq_true, if_false] at h
      cases hpred : predOriginalSample s.config.prediction_type
          (s.sigmas.getD i 0) mo x with
      | error e =>
        rw [hpred] at h
        simp at h
      | ok p =>
        rw [hpred] at h
        cases hpd : s.prev_derivative with
        | none =>
          rw [hpd, hdt] at h
          simp at h
        | some pd =>
          cases hsm : s.sample with
          | none =>
            rw [hpd, hdt, hsm] at h
            simp at h
          | some sm =>
            rw [hpd, hdt, hsm] at h
            simp only [Except.ok.injEq, Prod.mk.injEq] at h
            obtain ⟨_, hs1⟩ := h
            rw [← hs1]
            constructor <;> rfl

/-! ### Phase parity along a run of successful steps -/

theorem runSteps_nil (s : HeunScheduler) : runSteps s [] = some s := rfl

theorem runSteps_cons (s : HeunScheduler) (mo t x : ℝ) (rest : List (ℝ × ℝ × ℝ)) :
    runSteps s ((mo, t, x) :: rest) =
      match step s mo t x with
      | Except.ok (_, s1) => runSteps s1 rest
      | Except.error _ => none := rfl

theorem runSteps_phase (calls : List (ℝ × ℝ × ℝ)) :
    ∀ s0 s1 : HeunScheduler, runSteps s0 calls = some s1 →
      s1.dt.isNone = (if Even calls.length then s0.dt.isNone else !s0.dt.isNone) ∧
      (calls ≠ [] → s1.prev_derivative.isNone = s1.dt.isNone) := by
  induction calls with
  | nil =>
    intro s0 s1 h
    rw [runSteps_nil] at h
    obtain rfl : s0 = s1 := Option.some.inj h
    refine ⟨?_, fun hne => absurd rfl hne⟩
    simp
  | cons c rest ih =>
    intro s0 s1 h
    obtain ⟨mo, t, x⟩ := c
    rw [runSteps_cons] at h
    cases hstep : step s0 mo t x with
    | error e =>
      rw [hstep] at h
      simp at h
    | ok pr =>
      obtain ⟨r, smid⟩ := pr
      simp only [hstep] at h
      have hph := step_ok_phase hstep
      have hih := ih smid s1 h
      constructor
      · rw [hih.1, hph.1]
        have hlen : (((mo, t, x) :: rest).length) = rest.length + 1 := rfl
        rw [hlen]
        by_cases he : Even rest.length
        · have hne : ¬ Even (rest.length + 1) := by
            rw [Nat.even_add_one]
            exact fun hc => hc he
          simp [he, hne]
        · have hyes : Even (rest.length + 1) := Nat.even_add_one.mpr he
          simp [he, hyes]
      · intro _
        rcases eq_or_ne rest [] with rfl | hne
        · rw [runSteps_nil] at h
          obtain rfl : smid = s1 := Option.some.inj h
          exact hph.2
        · exact hih.2 hne

/-! ### Claim theorems: the step integrator -/

/-- Claim C1: for a `step` call whose timestep resolves to position `i` of the
configured schedule (with the in-range sub-step positions of a rebuilt
schedule) and prediction type `epsilon` or `v_prediction`, the predictor phase
returns `sample + derivative * dt` with `derivative = (sample - pred_original)
/ sigma` and `dt = sigma_next - sigma`, storing `(derivative, dt, sample)`;
the corrector phase returns `stored_sample + ((stored_derivative + (sample -
pred_original) / sigma_next) / 2) * stored_dt` and clears the stored
derivative, `dt` and sample. -/
theorem heun_step_formulas (s : HeunScheduler) (mo t x : ℝ) (i : ℕ) (p : ℝ)
    (hpt : s.config.prediction_type = "epsilon" ∨ s.config.prediction_type = "v_prediction")
    (hidx : indexForTimestep s t none = some i)
    (hrange : i + 1 < s.sigmas.length)
    (hp : predOriginalSample s.config.prediction_type (s.sigmas.getD i 0) mo x = Except.ok p) :
    (s.dt = none →
      step s mo t x = Except.ok
        (x + (x - p) / s.sigmas.getD i 0 * (s.sigmas.getD (i + 1) 0 - s.sigmas.getD i 0),
         { s with prev_derivative := some ((x - p) / s.sigmas.getD i 0),
                  dt := some (s.sigmas.getD (i + 1) 0 - s.sigmas.getD i 0),
                  sample := some x })) ∧
    (∀ d0 dt0 x0 : ℝ, s.prev_derivative = some d0 → s.dt = some dt0 → s.sample = some x0 →
      step s mo t x = Except.ok
        (x0 + (d0 + (x - p) / s.sigmas.getD i 0) / 2 * dt0,
         { s with prev_derivative := none, dt := none, sample := none })) :=
  ⟨fun hfo => step_predictor_eval s mo t x i p hidx hfo hp,
   fun d0 dt0 x0 hpd hdt hsm => step_corrector_eval s mo t x i p d0 dt0 x0 hidx hdt hpd hsm hp⟩

theorem demoStepState_idx : indexForTimestep demoStepState (((5 : ℚ) : ℝ)) none = some 2 := by
  have hm : matchIdxs demoStepState.timesteps (((5 : ℚ) : ℝ)) = [1, 2] := by
    rw [show demoStepState.timesteps = castList [7, 5, 5] from rfl, matchIdxs_castList]
    decide
  unfold indexForTimestep
  rw [stateInFirstOrder_true (show demoStepState.dt = none from rfl)]
  simp only [Option.getD_none, if_true, hm]
  rfl

theorem heun_step_formulas_witness :
    step demoStepState 1 (((5 : ℚ) : ℝ)) 1 = Except.ok
      (0, { demoStepState with prev_derivative := some 1, dt := some (-1), sample := some 1 }) := by
  have hσ2 : demoStepState.sigmas.getD 2 0 = 1 := by
    rw [show demoStepState.sigmas = castList [3, 2, 1, 0] from rfl]
    show (((1 : ℚ) : ℝ)) = 1
    norm_num
  have hσ3 : demoStepState.sigmas.getD 3 0 = 0 := by
    rw [show demoStepState.sigmas = castList [3, 2, 1, 0] from rfl]
    show (((0 : ℚ) : ℝ)) = 0
    norm_num
  have hp : predOriginalSample demoStepState.config.prediction_type
      (demoStepState.sigmas.getD 2 0) 1 1 = Except.ok 0 := by
    rw [show demoStepState.config.prediction_type = "epsilon" from rfl, hσ2]
    unfold predOriginalSample
    norm_num
  have happ := (heun_step_formulas demoStepState 1 (((5 : ℚ) : ℝ)) 1 2 0 (Or.inl rfl)
    demoStepState_idx (by rw [show demoStepState.sigmas = castList [3, 2, 1, 0] from rfl]; decide)
    hp).1 rfl
  rw [happ, hσ2, hσ3]
  norm_num

/-- Claim C5: a `step` call with a timestep value that matches no entry of the
configured timestep schedule fails with the `LookupError`-class error (the
empty match list makes `indices[pos]` raise `IndexError`), never a silently
selected nearest index. -/
theorem heun_step_missing_timestep (s : HeunScheduler) (mo t x : ℝ)
    (h : t ∉ s.timesteps) :
    step s mo t x = Except.error SchedErr.lookupError := by
  unfold step
  rw [indexForTimestep_eq_none h]

theorem heun_step_missing_timestep_witness :
    (((9 : ℚ) : ℝ)) ∉ demoStepState.timesteps ∧
    step demoStepState 1 (((9 : ℚ) : ℝ)) 1 = Except.error SchedErr.lookupError := by
  have hnm : (((9 : ℚ) : ℝ)) ∉ demoStepState.timesteps := by
    rw [show demoStepState.timesteps = castList [7, 5, 5] from rfl, mem_castList]
    decide
  exact ⟨hnm, heun_step_missing_timestep demoStepState 1 _ 1 hnm⟩

/-- Claim C8: along any sequence of successful `step` calls from a state with
empty integrator storage (as `set_timesteps` leaves it), the engine is in
predictor-ready (first-order) state exactly after an even number of calls and
corrector-pending after an odd number, and at every reachable state the
stored derivative is absent exactly when the stored `dt` is absent. -/
theorem heun_phase_parity (s0 : HeunScheduler) (calls : List (ℝ × ℝ × ℝ))
    (s1 : HeunScheduler) (h0p : s0.prev_derivative = none) (h0d : s0.dt = none)
    (hrun : runSteps s0 calls = some s1) :
    (stateInFirstOrder s1 = true ↔ Even calls.length) ∧
    (s1.prev_derivative = none ↔ s1.dt = none) := by
  obtain ⟨hph, hinv⟩ := runSteps_phase calls s0 s1 hrun
  constructor
  · unfold stateInFirstOrder
    rw [hph, h0d]
    by_cases he : Even calls.length
    · simp [he]
    · simp [he]
  · rcases eq_or_ne calls [] with rfl | hne
    · rw [runSteps_nil] at hrun
      obtain rfl : s0 = s1 := Option.some.inj hrun
      rw [h0p, h0d]
    · have hb := hinv hne
      rw [← Option.isNone_iff_eq_none, ← Option.isNone_iff_eq_none, hb]

theorem heun_phase_parity_witness :
    demoStepState.prev_derivative = none ∧ demoStepState.dt = none ∧
    runSteps demoStepState [] = some demoStepState ∧
    ((stateInFirstOrder demoStepState = true ↔ Even ([] : List (ℝ × ℝ × ℝ)).length) ∧
     (demoStepState.prev_derivative = none ↔ demoStepState.dt = none)) :=
  ⟨rfl, rfl, rfl, heun_phase_parity demoStepState [] demoStepState rfl rfl rfl⟩

/-! ### Claim theorems: the shape of the rebuilt inference schedule -/

theorem castList_pairwise_ge {l : List ℚ} (h : l.Pairwise (· ≥ ·)) :
    (castList l).Pairwise (· ≥ ·) := by
  unfold castList
  rw [List.pairwise_map]
  exact h.imp (fun hab => by exact_mod_cast hab)

theorem trainSigmasOf_ne_nil {ac : List ℝ} (h : ac ≠ []) :
    (trainSigmasOf ac).length ≠ 0 := by
  rw [trainSigmasOf_length]
  intro hc
  exact h (List.length_eq_zero.mp hc)

/-- Claim C3: on the non-Karras path, after a successful `set_timesteps(N)`
with `N ≥ 1` (and at least one training timestep), the timestep schedule is a
non-increasing (descending) sequence of length `2N - 1`, and the sigma
schedule has one more entry than the timestep schedule and ends in an entry
exactly equal to `0.0`. -/
theorem heun_set_timesteps_shape (s : HeunScheduler) (N : ℤ) (nt : Option ℕ)
    (hk : s.config.use_karras_sigmas = false) (hN : 1 ≤ N)
    (hT : 1 ≤ resolveNumTrain nt s.config) (hac : s.alphas_cumprod ≠ []) :
    ∃ s1, setTimesteps s N nt = Except.ok s1 ∧
      s1.timesteps.length = 2 * N.toNat - 1 ∧
      s1.timesteps.Sorted (· ≥ ·) ∧
      s1.sigmas.length = s1.timesteps.length + 1 ∧
      s1.sigmas.getLast? = some 0 := by
  have hts := trainSigmasOf_ne_nil hac
  refine ⟨_, setTimesteps_eq_ok s N nt hk (by omega) hts, ?_, ?_, ?_, ?_⟩
  · -- length of the duplicated timesteps
    show (dupTimesteps (castList (buildTimestepsQ (resolveNumTrain nt s.config) N.toNat))).length =
      2 * N.toNat - 1
    have hlen : (castList (buildTimestepsQ (resolveNumTrain nt s.config) N.toNat)).length =
        N.toNat := by
      rw [castList_length, buildTimestepsQ_length]
    have hne : castList (buildTimestepsQ (resolveNumTrain nt s.config) N.toNat) ≠ [] := by
      intro hc
      rw [hc] at hlen
      simp at hlen
      omega
    rw [dupTimesteps_length _ hne, hlen]
  · -- descending
    show (dupTimesteps (castList (buildTimestepsQ (resolveNumTrain nt s.config)
      N.toNat))).Sorted (· ≥ ·)
    exact @dupTimesteps_pairwise ℝ (· ≥ ·) (fun a => le_refl a) _
      (castList_pairwise_ge (buildTimestepsQ_pairwise_ge hT))
  · -- one more sigma than timesteps
    show (dupSigmas (rebuiltBase s.alphas_cumprod (resolveNumTrain nt s.config)
        N.toNat)).length =
      (dupTimesteps (castList (buildTimestepsQ (resolveNumTrain nt s.config)
        N.toNat))).length + 1
    unfold rebuiltBase
    have hyl : ((buildTimestepsQ (resolveNumTrain nt s.config) N.toNat).map
        (fun t => interpGrid (trainSigmasOf s.alphas_cumprod) t)).length = N.toNat := by
      rw [List.length_map, buildTimestepsQ_length]
    have hyne : (buildTimestepsQ (resolveNumTrain nt s.config) N.toNat).map
        (fun t => interpGrid (trainSigmasOf s.alphas_cumprod) t) ≠ [] := by
      intro hc
      rw [hc] at hyl
      simp at hyl
      omega
    have hclen : (castList (buildTimestepsQ (resolveNumTrain nt s.config) N.toNat)).length =
        N.toNat := by
      rw [castList_length, buildTimestepsQ_length]
    have hcne : castList (buildTimestepsQ (resolveNumTrain nt s.config) N.toNat) ≠ [] := by
      intro hc
      rw [hc] at hclen
      simp at hclen
      omega
    rw [dupSigmas_concat_length _ _ hyne, dupTimesteps_length _ hcne, hyl, hclen]
    omega
  · -- terminal sigma is exactly zero
    show (dupSigmas (rebuiltBase s.alphas_cumprod (resolveNumTrain nt s.config)
        N.toNat)).getLast? = some 0
    unfold rebuiltBase
    have hyl : ((buildTimestepsQ (resolveNumTrain nt s.config) N.toNat).map
        (fun t => interpGrid (trainSigmasOf s.alphas_cumprod) t)).length = N.toNat := by
      rw [List.length_map, buildTimestepsQ_length]
    have hyne : (buildTimestepsQ (resolveNumTrain nt s.config) N.toNat).map
        (fun t => interpGrid (trainSigmasOf s.alphas_cumprod) t) ≠ [] := by
      intro hc
      rw [hc] at hyl
      simp at hyl
      omega
    exact dupSigmas_concat_getLast? _ _ hyne

theorem heun_set_timesteps_shape_witness :
    demoSched.config.use_karras_sigmas = false ∧ (1 : ℤ) ≤ 3 ∧
    1 ≤ resolveNumTrain none demoSched.config ∧ demoSched.alphas_cumprod ≠ [] ∧
    ∃ s1, setTimesteps demoSched 3 none = Except.ok s1 ∧
      s1.timesteps.length = 2 * (3 : ℤ).toNat - 1 ∧
      s1.timesteps.Sorted (· ≥ ·) ∧
      s1.sigmas.length = s1.timesteps.length + 1 ∧
      s1.sigmas.getLast? = some 0 :=
  ⟨rfl, by norm_num, by decide, by simp [demoSched, castList],
   heun_set_timesteps_shape demoSched 3 none rfl (by norm_num) (by decide)
     (by simp [demoSched, castList])⟩

/-- Claim C7 (amended): `set_timesteps` fails (numpy rejects a negative
sample count) exactly for negative `num_inference_steps`; `num_inference_steps
= 0` is NOT rejected — it silently rebuilds an empty schedule — and every
`num_inference_steps ≥ 0` (non-Karras, nonempty training schedule) rebuilds
the inference schedule and clears the stored derivative and `dt`. -/
theorem heun_set_timesteps_validation (s : HeunScheduler) (N : ℤ) (nt : Option ℕ) :
    (N < 0 → setTimesteps s N nt = Except.error SchedErr.valueError) ∧
    (0 ≤ N → s.config.use_karras_sigmas = false → s.alphas_cumprod ≠ [] →
      ∃ s1, setTimesteps s N nt = Except.ok s1 ∧
        s1.prev_derivative = none ∧ s1.dt = none ∧
        s1.timesteps = dupTimesteps (castList (buildTimestepsQ
          (resolveNumTrain nt s.config) N.toNat)) ∧
        s1.sigmas = dupSigmas (rebuiltBase s.alphas_cumprod
          (resolveNumTrain nt s.config) N.toNat)) := by
  constructor
  · intro hneg
    exact setTimesteps_neg s N nt hneg
  · intro hN hk hac
    exact ⟨_, setTimesteps_eq_ok s N nt hk hN (trainSigmasOf_ne_nil hac), rfl, rfl, rfl, rfl⟩

theorem heun_set_timesteps_validation_witness :
    (setTimesteps demoSched (-1) none = Except.error SchedErr.valueError) ∧
    ∃ s1, setTimesteps demoSched 3 none = Except.ok s1 ∧
      s1.prev_derivative = none ∧ s1.dt = none ∧
      s1.timesteps = dupTimesteps (castList (buildTimestepsQ
        (resolveNumTrain none demoSched.config) (3 : ℤ).toNat)) ∧
      s1.sigmas = dupSigmas (rebuiltBase demoSched.alphas_cumprod
        (resolveNumTrain none demoSched.config) (3 : ℤ).toNat) :=
  ⟨(heun_set_timesteps_validation demoSched (-1) none).1 (by norm_num),
   (heun_set_timesteps_validation demoSched 3 none).2 (by norm_num) rfl
     (by simp [demoSched, castList])⟩

/-- Counterexample to claim C7 as stated: `set_timesteps(0)` has
`num_inference_steps < 1` yet does not fail — it succeeds and silently
installs an empty timestep schedule. -/
theorem heun_set_timesteps_zero_accepted :
    ((0 : ℤ) < 1) ∧
    ∃ s1, setTimesteps demoSched 0 none = Except.ok s1 ∧ s1.timesteps = [] := by
  refine ⟨by norm_num, ?_⟩
  refine ⟨_, setTimesteps_eq_ok demoSched 0 none rfl (le_refl 0)
    (trainSigmasOf_ne_nil (by simp [demoSched, castList])), ?_⟩
  show dupTimesteps (castList (buildTimestepsQ (resolveNumTrain none demoSched.config)
    (0 : ℤ).toNat)) = []
  rfl

/-! ### Claim theorems: noise injection -/

theorem lookup_dup_sigma (s : HeunScheduler) (tb : List ℚ) (sb : List ℝ)
    (hts : s.timesteps = dupTimesteps (castList tb))
    (hsg : s.sigmas = dupSigmas (sb ++ [(0 : ℝ)]))
    (hlen : sb.length = tb.length) (hnd : tb.Nodup)
    {t : ℝ} (ht : t ∈ s.timesteps) :
    ∃ i, indexForTimestep s t (some s.timesteps) = some i ∧
      s.sigmas.getD i 0 = s.sigmas.getD ((matchIdxs s.timesteps t).getLast?.getD 0) 0 := by
  have ht' := ht
  rw [hts, mem_dupTimesteps] at ht'
  obtain ⟨q, hq, rfl⟩ := List.mem_map.mp ht'
  obtain ⟨k, hk⟩ := List.mem_iff_get?.mp hq
  have hknd : (castList tb).Nodup := castList_nodup hnd
  have hkget : (castList tb).get? k = some ((q : ℚ) : ℝ) := by
    rw [castList_get?, hk]
    rfl
  have hmi : matchIdxs s.timesteps ((q : ℚ) : ℝ) =
      if k = 0 then [0] else [2 * k - 1, 2 * k] := by
    rw [hts]
    exact matchIdxs_dupTimesteps (castList tb) hknd k _ hkget
  have hkb : k < tb.length := by
    rcases List.get?_eq_some.mp hk with ⟨h, _⟩
    exact h
  have hsbne : sb ≠ [] := by
    intro hc
    rw [hc] at hlen
    simp at hlen
    omega
  by_cases hk0 : k = 0
  · subst hk0
    rw [if_pos rfl] at hmi
    refine ⟨0, ?_, by rw [hmi]; rfl⟩
    unfold indexForTimestep
    simp only [Option.getD_some]
    rw [hmi]
    cases hb : stateInFirstOrder s <;> simp
  · rw [if_neg hk0] at hmi
    have hsig : s.sigmas.getD (2 * k - 1) 0 = s.sigmas.getD (2 * k) 0 := by
      rw [hsg, List.getD_eq_get?, List.getD_eq_get?,
        dupSigmas_concat_get? sb 0 hsbne (2 * k - 1) (by omega),
        dupSigmas_concat_get? sb 0 hsbne (2 * k) (by omega)]
      have e1 : (2 * k - 1 + 1) / 2 = k := by omega
      have e2 : (2 * k + 1) / 2 = k := by omega
      rw [e1, e2]
    have hlast : (matchIdxs s.timesteps ((q : ℚ) : ℝ)).getLast?.getD 0 = 2 * k := by
      rw [hmi]
      rfl
    cases hb : stateInFirstOrder s with
    | false =>
      refine ⟨2 * k - 1, ?_, by rw [hlast]; exact hsig⟩
      unfold indexForTimestep
      simp only [Option.getD_some]
      rw [hb, hmi]
      simp
    | true =>
      refine ⟨2 * k, ?_, by rw [hlast]⟩
      unfold indexForTimestep
      simp only [Option.getD_some]
      rw [hb, hmi]
      simp

theorem mapM_lookup_eval (g : ℝ → Option ℕ) (sf : ℕ → ℝ) (f : ℝ → ℝ) :
    ∀ ts : List ℝ, (∀ t ∈ ts, ∃ i, g t = some i ∧ sf i = f t) →
      ∃ idxs, ts.mapM g = some idxs ∧ idxs.map sf = ts.map f := by
  intro ts
  induction ts with
  | nil => intro _; exact ⟨[], rfl, rfl⟩
  | cons t rest ih =>
    intro h
    obtain ⟨i, hgi, hsi⟩ := h t (List.mem_cons_self t rest)
    obtain ⟨idxs, hmap, heq⟩ := ih (fun u hu => h u (List.mem_cons_of_mem t hu))
    refine ⟨i :: idxs, ?_, ?_⟩
    · rw [List.mapM_cons, hgi, hmap]
      rfl
    · rw [List.map_cons, List.map_cons, heq, hsi]

/-- Claim C4: on a schedule of the shape installed by `set_timesteps`
(duplicated timesteps over a duplicate-free base, duplicated sigmas with the
terminal `0`), `add_noise` resolves every supplied timestep to the sigma
value at the last matching index — the first-order tie-break — regardless of
the current integrator phase (the corrector-phase lookup picks the first
matching index, but the duplicated schedule stores the same sigma there),
broadcasts it, and returns `original + noise * sigma`; it is pure and
returns only the noisy values, mutating no scheduler state. -/
theorem heun_add_noise_pure (s : HeunScheduler) (tb : List ℚ) (sb : List ℝ)
    (hts : s.timesteps = dupTimesteps (castList tb))
    (hsg : s.sigmas = dupSigmas (sb ++ [(0 : ℝ)]))
    (hlen : sb.length = tb.length) (hnd : tb.Nodup)
    (orig noise : ℝ) (ts : List ℝ) (hmem : ∀ t ∈ ts, t ∈ s.timesteps) :
    addNoise s orig noise ts = some (ts.map (fun t =>
      orig + noise * s.sigmas.getD ((matchIdxs s.timesteps t).getLast?.getD 0) 0)) := by
  unfold addNoise
  have hall : ∀ t ∈ ts, ∃ i, indexForTimestep s t (some s.timesteps) = some i ∧
      (fun j => orig + noise * s.sigmas.getD j 0) i =
      (fun u => orig + noise * s.sigmas.getD ((matchIdxs s.timesteps u).getLast?.getD 0) 0) t := by
    intro t ht
    obtain ⟨i, hi, hs⟩ := lookup_dup_sigma s tb sb hts hsg hlen hnd (hmem t ht)
    refine ⟨i, hi, ?_⟩
    simp only
    rw [hs]
  obtain ⟨idxs, hmapM, hmap⟩ := mapM_lookup_eval _ _ _ ts hall
  simp only [hmapM]
  rw [hmap]

theorem heun_add_noise_pure_witness :
    demoCorrState.timesteps = dupTimesteps (castList [5, 3]) ∧
    demoCorrState.sigmas = dupSigmas (castList [2, 1] ++ [(0 : ℝ)]) ∧
    demoCorrState.dt = some 1 ∧
    addNoise demoCorrState 10 1 [(((3 : ℚ) : ℝ))] = some ([(((3 : ℚ) : ℝ))].map (fun t =>
      10 + 1 * demoCorrState.sigmas.getD
        ((matchIdxs demoCorrState.timesteps t).getLast?.getD 0) 0)) := by
  refine ⟨rfl, rfl, rfl, ?_⟩
  apply heun_add_noise_pure demoCorrState [5, 3] (castList [2, 1]) rfl rfl
    (by rw [castList_length]; rfl) (by decide) 10 1
  intro t htm
  have h3 : t = (((3 : ℚ) : ℝ)) := by
    rcases List.mem_singleton.mp htm with rfl
    rfl
  subst h3
  rw [show demoCorrState.timesteps = dupTimesteps (castList [5, 3]) from rfl,
    mem_dupTimesteps, mem_castList]
  decide

/-! ### Claim theorems: the duplication rule of the rebuilt schedule -/

theorem get?_eq_some_getD {α : Type _} (l : List α) (d : α) {i : ℕ} (h : i < l.length) :
    l.get? i = some (l.getD i d) := by
  rw [getD_eq_get l d h, List.get?_eq_get h]

theorem castList_pairwise_gt {l : List ℚ} (h : l.Pairwise (· > ·)) :
    (castList l).Pairwise (· > ·) := by
  unfold castList
  rw [List.pairwise_map]
  exact h.imp (fun hab => by exact_mod_cast hab)

theorem castList_mem_01 {l : List ℚ} (h : ∀ x ∈ l, 0 < x ∧ x < 1) :
    ∀ y ∈ castList l, 0 < y ∧ y < 1 := by
  intro y hy
  obtain ⟨q, hq, rfl⟩ := List.mem_map.mp hy
  obtain ⟨h0, h1⟩ := h q hq
  constructor
  · exact_mod_cast h0
  · exact_mod_cast h1

/-- Counterexample to claim C2 as stated: already at `num_inference_steps = 3`
(with the 4-step training schedule of `demoSched`), the rebuilt timestep
sequence `[3, 3/2, 3/2, 0, 0]` ends in the entry `0`, which appears at the
two consecutive positions 3 and 4 — the LAST timestep entry is duplicated,
not left unduplicated.  (Only the sigma sequence spares its last entry.) -/
theorem heun_timestep_last_duplicated :
    ∃ s1, setTimesteps demoSched 3 none = Except.ok s1 ∧
      s1.timesteps = dupTimesteps (castList (buildTimestepsQ 4 3)) ∧
      s1.timesteps.length = 5 ∧
      s1.timesteps.get? 4 = some (((0 : ℚ) : ℝ)) ∧
      matchIdxs s1.timesteps (((0 : ℚ) : ℝ)) = [3, 4] := by
  have hres : resolveNumTrain none demoSched.config = 4 := rfl
  have htn : (3 : ℤ).toNat = 3 := rfl
  have hbuild : buildTimestepsQ 4 3 = [3, 3/2, 0] := by
    unfold buildTimestepsQ npLinspace
    rw [show List.range 3 = [0, 1, 2] from rfl]
    norm_num
  refine ⟨_, setTimesteps_eq_ok demoSched 3 none rfl (by norm_num)
    (trainSigmasOf_ne_nil (by simp [demoSched, castList])), by rw [hres, htn], ?_, ?_, ?_⟩
  · show (dupTimesteps (castList (buildTimestepsQ (resolveNumTrain none demoSched.config)
      (3 : ℤ).toNat))).length = 5
    rw [hres, htn]
    have hne : castList (buildTimestepsQ 4 3) ≠ [] := by
      intro hc
      have := congrArg List.length hc
      rw [castList_length, buildTimestepsQ_length] at this
      simp at this
    rw [dupTimesteps_length _ hne, castList_length, buildTimestepsQ_length]
  · show (dupTimesteps (castList (buildTimestepsQ (resolveNumTrain none demoSched.config)
      (3 : ℤ).toNat))).get? 4 = some (((0 : ℚ) : ℝ))
    rw [hres, htn, dupTimesteps_get?, castList_get?, hbuild]
    rfl
  · show matchIdxs (dupTimesteps (castList (buildTimestepsQ
      (resolveNumTrain none demoSched.config) (3 : ℤ).toNat))) (((0 : ℚ) : ℝ)) = [3, 4]
    rw [hres, htn]
    have hnd : (castList (buildTimestepsQ 4 3)).Nodup :=
      castList_nodup (by rw [hbuild]; norm_num)
    have hget : (castList (buildTimestepsQ 4 3)).get? 2 = some (((0 : ℚ) : ℝ)) := by
      rw [castList_get?, hbuild]
      rfl
    rw [matchIdxs_dupTimesteps _ hnd 2 _ hget]
    rfl

/-- Claim C2 (amended): for `num_inference_steps = N ≥ 3` on the non-Karras
path over a valid training schedule of at least two steps, the rebuilt SIGMA
sequence duplicates exactly its interior entries (each appears at two
consecutive positions) while its first and last entries appear exactly once;
the rebuilt TIMESTEP sequence duplicates every entry except the first —
INCLUDING its last entry — while its first entry appears exactly once. -/
theorem heun_duplication_rule (s : HeunScheduler) (N : ℤ) (nt : Option ℕ)
    (tb : List ℚ) (sbase : List ℝ)
    (hk : s.config.use_karras_sigmas = false) (hN : 3 ≤ N)
    (hT : 2 ≤ resolveNumTrain nt s.config)
    (hTlen : s.alphas_cumprod.length = resolveNumTrain nt s.config)
    (hac01 : ∀ a ∈ s.alphas_cumprod, 0 < a ∧ a < 1)
    (hacp : s.alphas_cumprod.Pairwise (· > ·))
    (htb : tb = buildTimestepsQ (resolveNumTrain nt s.config) N.toNat)
    (hsb : sbase = rebuiltBase s.alphas_cumprod (resolveNumTrain nt s.config) N.toNat) :
    ∃ s1, setTimesteps s N nt = Except.ok s1 ∧
      matchIdxs s1.timesteps (((tb.getD 0 0 : ℚ) : ℝ)) = [0] ∧
      (∀ i, 1 ≤ i → i < N.toNat →
        matchIdxs s1.timesteps (((tb.getD i 0 : ℚ) : ℝ)) = [2 * i - 1, 2 * i]) ∧
      matchIdxs s1.sigmas (sbase.getD 0 0) = [0] ∧
      (∀ i, 1 ≤ i → i < N.toNat →
        matchIdxs s1.sigmas (sbase.getD i 0) = [2 * i - 1, 2 * i]) ∧
      matchIdxs s1.sigmas (sbase.getD N.toNat 0) = [2 * N.toNat - 1] := by
  subst htb hsb
  have hacne : s.alphas_cumprod ≠ [] := by
    intro hc
    rw [hc] at hTlen
    simp at hTlen
    omega
  have hn3 : 3 ≤ N.toNat := by omega
  have htbl : (buildTimestepsQ (resolveNumTrain nt s.config) N.toNat).length = N.toNat :=
    buildTimestepsQ_length _ _
  have htbn : (buildTimestepsQ (resolveNumTrain nt s.config) N.toNat).Nodup :=
    buildTimestepsQ_nodup hT
  have hcnd : (castList (buildTimestepsQ (resolveNumTrain nt s.config) N.toNat)).Nodup :=
    castList_nodup htbn
  have htrainlen : (trainSigmasOf s.alphas_cumprod).length = resolveNumTrain nt s.config := by
    rw [trainSigmasOf_length, hTlen]
  have htrainp : (trainSigmasOf s.alphas_cumprod).Pairwise (· < ·) :=
    trainSigmasOf_pairwise_lt hacp hac01
  have htrainpos := trainSigmasOf_getD_pos hac01
  have hysp : ((buildTimestepsQ (resolveNumTrain nt s.config) N.toNat).map
      (fun t => interpGrid (trainSigmasOf s.alphas_cumprod) t)).Pairwise (· > ·) := by
    rw [List.pairwise_map]
    apply (buildTimestepsQ_pairwise_gt hT).imp_of_mem
    intro a b ha hb hab
    obtain ⟨hb0, _⟩ := buildTimestepsQ_mem_le (by omega) hb
    obtain ⟨_, ha1⟩ := buildTimestepsQ_mem_le (by omega) ha
    exact interpGrid_strict_mono _ htrainp hb0 hab (by rw [htrainlen]; exact ha1)
  have hyspos : ∀ y ∈ (buildTimestepsQ (resolveNumTrain nt s.config) N.toNat).map
      (fun t => interpGrid (trainSigmasOf s.alphas_cumprod) t), 0 < y := by
    intro y hy
    obtain ⟨t, htmem, rfl⟩ := List.mem_map.mp hy
    obtain ⟨ht0, ht1⟩ := buildTimestepsQ_mem_le (by omega) htmem
    exact interpGrid_pos _ htrainp htrainpos ht0 (by rw [htrainlen]; exact ht1)
  have hyslen : ((buildTimestepsQ (resolveNumTrain nt s.config) N.toNat).map
      (fun t => interpGrid (trainSigmasOf s.alphas_cumprod) t)).length = N.toNat := by
    rw [List.length_map, htbl]
  have hysne : (buildTimestepsQ (resolveNumTrain nt s.config) N.toNat).map
      (fun t => interpGrid (trainSigmasOf s.alphas_cumprod) t) ≠ [] := by
    intro hc
    rw [hc] at hyslen
    simp at hyslen
    omega
  have hbasep : ((buildTimestepsQ (resolveNumTrain nt s.config) N.toNat).map
      (fun t => interpGrid (trainSigmasOf s.alphas_cumprod) t) ++ [(0 : ℝ)]).Pairwise
        (· > ·) := by
    rw [List.pairwise_append]
    refine ⟨hysp, by simp, ?_⟩
    intro y hy z hz
    rw [List.mem_singleton.mp hz]
    exact hyspos y hy
  have hbasend : ((buildTimestepsQ (resolveNumTrain nt s.config) N.toNat).map
      (fun t => interpGrid (trainSigmasOf s.alphas_cumprod) t) ++ [(0 : ℝ)]).Nodup :=
    hbasep.imp (fun hab => ne_of_gt hab)
  have hrb : rebuiltBase s.alphas_cumprod (resolveNumTrain nt s.config) N.toNat =
      (buildTimestepsQ (resolveNumTrain nt s.config) N.toNat).map
        (fun t => interpGrid (trainSigmasOf s.alphas_cumprod) t) ++ [(0 : ℝ)] := rfl
  have hbaselen : ((buildTimestepsQ (resolveNumTrain nt s.config) N.toNat).map
      (fun t => interpGrid (trainSigmasOf s.alphas_cumprod) t) ++ [(0 : ℝ)]).length =
      N.toNat + 1 := by
    rw [List.length_append, hyslen]
    rfl
  refine ⟨_, setTimesteps_eq_ok s N nt hk (by omega) (trainSigmasOf_ne_nil hacne),
    ?_, ?_, ?_, ?_, ?_⟩
  · -- the first timestep entry appears exactly once, at position 0
    have hg : (castList (buildTimestepsQ (resolveNumTrain nt s.config) N.toNat)).get? 0 =
        some (((buildTimestepsQ (resolveNumTrain nt s.config) N.toNat).getD 0 0 : ℚ) : ℝ) := by
      rw [castList_get?, get?_eq_some_getD _ (0 : ℚ) (by omega)]
      rfl
    rw [matchIdxs_dupTimesteps _ hcnd 0 _ hg]
    rfl
  · -- every other timestep entry appears exactly at the two consecutive
    -- positions 2i-1 and 2i
    intro i hi1 hiN
    have hg : (castList (buildTimestepsQ (resolveNumTrain nt s.config) N.toNat)).get? i =
        some (((buildTimestepsQ (resolveNumTrain nt s.config) N.toNat).getD i 0 : ℚ) : ℝ) := by
      rw [castList_get?, get?_eq_some_getD _ (0 : ℚ) (by omega)]
      rfl
    rw [matchIdxs_dupTimesteps _ hcnd i _ hg]
    rw [if_neg (by omega)]
  · -- the first sigma entry appears exactly once
    have hg : ((buildTimestepsQ (resolveNumTrain nt s.config) N.toNat).map
        (fun t => interpGrid (trainSigmasOf s.alphas_cumprod) t) ++ [(0 : ℝ)]).get? 0 =
        some (((buildTimestepsQ (resolveNumTrain nt s.config) N.toNat).map
          (fun t => interpGrid (trainSigmasOf s.alphas_cumprod) t) ++ [(0 : ℝ)]).getD 0 0) :=
      get?_eq_some_getD _ (0 : ℝ) (by rw [hbaselen]; omega)
    rw [hrb, matchIdxs_dupSigmas_concat _ _ hysne hbasend 0 _ hg]
    rfl
  · -- interior sigma entries appear exactly at positions 2i-1 and 2i
    intro i hi1 hiN
    have hg : ((buildTimestepsQ (resolveNumTrain nt s.config) N.toNat).map
        (fun t => interpGrid (trainSigmasOf s.alphas_cumprod) t) ++ [(0 : ℝ)]).get? i =
        some (((buildTimestepsQ (resolveNumTrain nt s.config) N.toNat).map
          (fun t => interpGrid (trainSigmasOf s.alphas_cumprod) t) ++ [(0 : ℝ)]).getD i 0) :=
      get?_eq_some_getD _ (0 : ℝ) (by rw [hbaselen]; omega)
    rw [hrb, matchIdxs_dupSigmas_concat _ _ hysne hbasend i _ hg]
    rw [if_neg (by omega), if_neg (by rw [hyslen]; omega)]
  · -- the last (terminal-zero) sigma entry appears exactly once, at the end
    have hg : ((buildTimestepsQ (resolveNumTrain nt s.config) N.toNat).map
        (fun t => interpGrid (trainSigmasOf s.alphas_cumprod) t) ++ [(0 : ℝ)]).get? N.toNat =
        some (((buildTimestepsQ (resolveNumTrain nt s.config) N.toNat).map
          (fun t => interpGrid (trainSigmasOf s.alphas_cumprod) t) ++ [(0 : ℝ)]).getD
            N.toNat 0) :=
      get?_eq_some_getD _ (0 : ℝ) (by rw [hbaselen]; omega)
    rw [hrb, matchIdxs_dupSigmas_concat _ _ hysne hbasend N.toNat _ hg]
    rw [if_neg (by omega), if_pos (by rw [hyslen])]

theorem heun_duplication_rule_witness :
    ∃ s1, setTimesteps demoSched 3 none = Except.ok s1 ∧
      matchIdxs s1.timesteps ((((buildTimestepsQ (resolveNumTrain none demoSched.config)
        (3 : ℤ).toNat).getD 0 0 : ℚ) : ℝ)) = [0] ∧
      (∀ i, 1 ≤ i → i < (3 : ℤ).toNat →
        matchIdxs s1.timesteps ((((buildTimestepsQ (resolveNumTrain none demoSched.config)
          (3 : ℤ).toNat).getD i 0 : ℚ) : ℝ)) = [2 * i - 1, 2 * i]) ∧
      matchIdxs s1.sigmas ((rebuiltBase demoSched.alphas_cumprod
        (resolveNumTrain none demoSched.config) (3 : ℤ).toNat).getD 0 0) = [0] ∧
      (∀ i, 1 ≤ i → i < (3 : ℤ).toNat →
        matchIdxs s1.sigmas ((rebuiltBase demoSched.alphas_cumprod
          (resolveNumTrain none demoSched.config) (3 : ℤ).toNat).getD i 0) =
          [2 * i - 1, 2 * i]) ∧
      matchIdxs s1.sigmas ((rebuiltBase demoSched.alphas_cumprod
        (resolveNumTrain none demoSched.config) (3 : ℤ).toNat).getD (3 : ℤ).toNat 0) =
        [2 * (3 : ℤ).toNat - 1] := by
  have hca : demoSched.alphas_cumprod = castList [1/2, 1/3, 1/4, 1/5] := rfl
  exact heun_duplication_rule demoSched 3 none _ _ rfl (by norm_num) (by decide)
    (by rw [hca, castList_length]; rfl)
    (by rw [hca]; exact castList_mem_01 (by norm_num))
    (by rw [hca]; exact castList_pairwise_gt (by norm_num))
    rfl rfl

/-! ### Claim theorems: construction -/

theorem setTimesteps_eq_ok_karras (s : HeunScheduler) (N : ℤ) (nt : Option ℕ)
    (hk : s.config.use_karras_sigmas = true) (hN : 0 ≤ N)
    (hts : (trainSigmasOf s.alphas_cumprod).length ≠ 0) :
    setTimesteps s N nt = Except.ok { s with
      num_inference_steps := N,
      sigmas := dupSigmas (convertToKarras
        ((buildTimestepsQ (resolveNumTrain nt s.config) N.toNat).map
          (fun t => interpGrid (trainSigmasOf s.alphas_cumprod) t)) N.toNat ++ [(0 : ℝ)]),
      init_noise_sigma := listMax (dupSigmas (convertToKarras
        ((buildTimestepsQ (resolveNumTrain nt s.config) N.toNat).map
          (fun t => interpGrid (trainSigmasOf s.alphas_cumprod) t)) N.toNat ++ [(0 : ℝ)])),
      timesteps := dupTimesteps ((convertToKarras
        ((buildTimestepsQ (resolveNumTrain nt s.config) N.toNat).map
          (fun t => interpGrid (trainSigmasOf s.alphas_cumprod) t)) N.toNat).map
            (fun σ => sigmaToT σ ((trainSigmasOf s.alphas_cumprod).map Real.log))),
      prev_derivative := none,
      dt := none } := by
  unfold setTimesteps
  rw [if_neg (not_lt.mpr hN)]
  simp only [hk, if_true, if_neg hts]

theorem setTimesteps_isOk (s : HeunScheduler) (N : ℤ) (nt : Option ℕ) (hN : 0 ≤ N)
    (hts : (trainSigmasOf s.alphas_cumprod).length ≠ 0) :
    ∃ s1, setTimesteps s N nt = Except.ok s1 ∧ s1.betas = s.betas := by
  cases hk : s.config.use_karras_sigmas with
  | false => exact ⟨_, setTimesteps_eq_ok s N nt hk hN hts, rfl⟩
  | true => exact ⟨_, setTimesteps_eq_ok_karras s N nt hk hN hts, rfl⟩

/-- Claim C6 (amended): construction fails with the unimplemented-schedule
error when `beta_schedule` is unrecognized and no explicit betas are given;
when explicit betas ARE given they are always used directly WITHOUT any
length validation — construction succeeds for any nonempty beta list, even
one whose length differs from `num_train_timesteps` (the mismatch is silently
absorbed by clamped interpolation). -/
theorem heun_construction_errors (cfg : HeunConfig) :
    (cfg.trained_betas = none → cfg.beta_schedule ≠ "linear" →
      cfg.beta_schedule ≠ "scaled_linear" → cfg.beta_schedule ≠ "squaredcos_cap_v2" →
      mkScheduler cfg = Except.error SchedErr.notImplemented) ∧
    (∀ l, cfg.trained_betas = some l → l ≠ [] →
      ∃ s, mkScheduler cfg = Except.ok s ∧ s.betas = l) := by
  constructor
  · intro htb h1 h2 h3
    unfold mkScheduler betasOf
    simp only [htb, if_neg h1, if_neg h2, if_neg h3]
  · intro l htb hl
    have hb : betasOf cfg = Except.ok l := by
      unfold betasOf
      rw [htb]
    unfold mkScheduler
    rw [hb]
    have hts : (trainSigmasOf (cumprod (l.map (fun b => 1 - b)))).length ≠ 0 := by
      rw [trainSigmasOf_length, cumprod_length, List.length_map]
      intro hc
      exact hl (List.length_eq_zero.mp hc)
    obtain ⟨s1, hs1, hbetas⟩ := setTimesteps_isOk
      { config := cfg, betas := l, alphas_cumprod := cumprod (l.map (fun b => 1 - b)),
        sigmas := [], timesteps := [], num_inference_steps := 0, init_noise_sigma := 0,
        prev_derivative := none, dt := none, sample := none }
      ((cfg.num_train_timesteps : ℤ)) (some cfg.num_train_timesteps)
      (by exact_mod_cast Nat.zero_le _) hts
    exact ⟨s1, hs1, hbetas⟩

theorem heun_construction_errors_witness :
    mkScheduler badSchedCfg = Except.error SchedErr.notImplemented ∧
    ∃ s, mkScheduler mismatchCfg = Except.ok s ∧ s.betas = castList [1/2, 1/3] :=
  ⟨(heun_construction_errors badSchedCfg).1 rfl (by decide) (by decide) (by decide),
   (heun_construction_errors mismatchCfg).2 (castList [1/2, 1/3]) rfl
     (by simp [castList])⟩

/-- Counterexample to claim C6 as stated: explicit betas of length 2 with
`num_train_timesteps = 3` do NOT make construction fail — the mismatched
list is accepted and used directly as the beta schedule. -/
theorem heun_trained_betas_length_unchecked :
    (castList [1/2, 1/3]).length ≠ mismatchCfg.num_train_timesteps ∧
    ∃ s, mkScheduler mismatchCfg = Except.ok s ∧ s.betas = castList [1/2, 1/3] := by
  constructor
  · rw [castList_length]
    decide
  · have hb : betasOf mismatchCfg = Except.ok (castList [1/2, 1/3]) := rfl
    unfold mkScheduler
    rw [hb]
    have hts : (trainSigmasOf (cumprod ((castList [1/2, 1/3]).map
        (fun b => 1 - b)))).length ≠ 0 := by
      rw [trainSigmasOf_length, cumprod_length, List.length_map, castList_length]
      decide
    obtain ⟨s1, hs1, hbetas⟩ := setTimesteps_isOk
      { config := mismatchCfg, betas := castList [1/2, 1/3],
        alphas_cumprod := cumprod ((castList [1/2, 1/3]).map (fun b => 1 - b)),
        sigmas := [], timesteps := [], num_inference_steps := 0, init_noise_sigma := 0,
        prev_derivative := none, dt := none, sample := none }
      ((mismatchCfg.num_train_timesteps : ℤ)) (some mismatchCfg.num_train_timesteps)
      (by exact_mod_cast Nat.zero_le _) hts
    exact ⟨s1, hs1, hbetas⟩

/-! ### Claim theorems: the constructor pre-populates the training schedule -/

theorem indexForTimestep_isSome {s : HeunScheduler} {t : ℝ} (sched : Option (List ℝ))
    (h : t ∈ sched.getD s.timesteps) : ∃ i, indexForTimestep s t sched = some i := by
  unfold indexForTimestep
  have hne : matchIdxs (sched.getD s.timesteps) t ≠ [] := fun hc =>
    (matchIdxs_eq_nil_iff.mp hc) h
  cases hfo : stateInFirstOrder s with
  | false =>
    simp only [hfo, Bool.false_eq_true, if_false]
    exact ⟨_, List.head?_eq_head hne⟩
  | true =>
    simp only [hfo, if_true]
    exact ⟨_, List.getLast?_eq_getLast _ hne⟩

theorem predOriginalSample_ne_lookup (pt : String) (σ mo x : ℝ) :
    predOriginalSample pt σ mo x ≠ Except.error SchedErr.lookupError := by
  unfold predOriginalSample
  split_ifs <;> simp

theorem step_ne_lookupError {s : HeunScheduler} {mo t x : ℝ}
    (h : ∃ i, indexForTimestep s t none = some i) :
    step s mo t x ≠ Except.error SchedErr.lookupError := by
  obtain ⟨i, hi⟩ := h
  unfold step
  cases hfo : stateInFirstOrder s with
  | true =>
    simp only [hi, hfo, if_true]
    cases hpred : predOriginalSample s.config.prediction_type
        (s.sigmas.getD i 0 * (0 + 1)) mo x with
    | error e =>
      have := predOriginalSample_ne_lookup s.config.prediction_type
        (s.sigmas.getD i 0 * (0 + 1)) mo x
      rw [hpred] at this
      simp only [hpred]
      intro hc
      have he : e = SchedErr.lookupError := by injection hc
      rw [he] at this
      exact this rfl
    | ok p => simp [hpred]
  | false =>
    simp only [hi, hfo, Bool.false_eq_true, if_false]
    cases hpred : predOriginalSample s.config.prediction_type
        (s.sigmas.getD i 0) mo x with
    | error e =>
      have := predOriginalSample_ne_lookup s.config.prediction_type
        (s.sigmas.getD i 0) mo x
      rw [hpred] at this
      simp only [hpred]
      intro hc
      have he : e = SchedErr.lookupError := by injection hc
      rw [he] at this
      exact this rfl
    | ok p =>
      simp only [hpred]
      cases s.prev_derivative <;> cases s.dt <;> cases s.sample <;> simp
  
theorem addNoise_single_isSome {s : HeunScheduler} {orig noise t : ℝ}
    (h : ∃ i, indexForTimestep s t (some s.timesteps) = some i) :
    (addNoise s orig noise [t]).isSome = true := by
  obtain ⟨i, hi⟩ := h
  unfold addNoise
  have hmap : ([t].mapM (fun u => indexForTimestep s u (some s.timesteps))) = some [i] := by
    rw [List.mapM_cons, hi, List.mapM_nil]
    rfl
  rw [hmap]
  rfl

theorem scaleModelInput_isSome {s : HeunScheduler} {x t : ℝ}
    (h : ∃ i, indexForTimestep s t none = some i) :
    (scaleModelInput s x t).isSome = true := by
  obtain ⟨i, hi⟩ := h
  unfold scaleModelInput
  rw [hi]
  rfl

/-- Claim C10: the constructor itself calls
`set_timesteps(num_train_timesteps, num_train_timesteps)`, so immediately
after construction (linear schedule, non-Karras) the timestep and sigma
sequences already hold the full duplicated training schedule (lengths
`2T - 1` and `2T`), the integrator state is empty, and `step`, `add_noise`
and `scale_model_input` at any training timestep value `k < T` succeed in
the lookup rather than failing with the LookupError-class error. -/
theorem heun_init_populates (cfg : HeunConfig)
    (htb : cfg.trained_betas = none) (hsched : cfg.beta_schedule = "linear")
    (hk : cfg.use_karras_sigmas = false) (hT : 1 ≤ cfg.num_train_timesteps) :
    ∃ s, mkScheduler cfg = Except.ok s ∧
      s.timesteps = dupTimesteps (castList (buildTimestepsQ cfg.num_train_timesteps
        cfg.num_train_timesteps)) ∧
      s.timesteps.length = 2 * cfg.num_train_timesteps - 1 ∧
      s.sigmas.length = 2 * cfg.num_train_timesteps ∧
      s.dt = none ∧
      ∀ k : ℕ, k < cfg.num_train_timesteps →
        (∀ mo x : ℝ, step s mo ((k : ℝ)) x ≠ Except.error SchedErr.lookupError) ∧
        (∀ orig noise : ℝ, (addNoise s orig noise [((k : ℝ))]).isSome = true) ∧
        (∀ x : ℝ, (scaleModelInput s x ((k : ℝ))).isSome = true) := by
  have hb : betasOf cfg = Except.ok (castList (npLinspace cfg.beta_start cfg.beta_end
      cfg.num_train_timesteps)) := by
    unfold betasOf
    rw [htb, if_pos hsched]
  have hres : resolveNumTrain (some cfg.num_train_timesteps) cfg =
      cfg.num_train_timesteps := by
    show (if cfg.num_train_timesteps = 0 then cfg.num_train_timesteps
      else cfg.num_train_timesteps) = cfg.num_train_timesteps
    split_ifs <;> rfl
  have haclen : (cumprod ((castList (npLinspace cfg.beta_start cfg.beta_end
      cfg.num_train_timesteps)).map (fun b => 1 - b))).length = cfg.num_train_timesteps := by
    rw [cumprod_length, List.length_map, castList_length, npLinspace_length]
  have hts : (trainSigmasOf (cumprod ((castList (npLinspace cfg.beta_start cfg.beta_end
      cfg.num_train_timesteps)).map (fun b => 1 - b)))).length ≠ 0 := by
    rw [trainSigmasOf_length, haclen]
    omega
  unfold mkScheduler
  rw [hb]
  have hset := setTimesteps_eq_ok
    { config := cfg,
      betas := castList (npLinspace cfg.beta_start cfg.beta_end cfg.num_train_timesteps),
      alphas_cumprod := cumprod ((castList (npLinspace cfg.beta_start cfg.beta_end
        cfg.num_train_timesteps)).map (fun b => 1 - b)),
      sigmas := [], timesteps := [], num_inference_steps := 0, init_noise_sigma := 0,
      prev_derivative := none, dt := none, sample := none }
    ((cfg.num_train_timesteps : ℤ)) (some cfg.num_train_timesteps) hk
    (by exact_mod_cast Nat.zero_le _) hts
  rw [hres, Int.toNat_natCast] at hset
  refine ⟨_, hset, rfl, ?_, ?_, rfl, ?_⟩
  · -- timestep length 2T - 1
    show (dupTimesteps (castList (buildTimestepsQ cfg.num_train_timesteps
      cfg.num_train_timesteps))).length = 2 * cfg.num_train_timesteps - 1
    have hlen : (castList (buildTimestepsQ cfg.num_train_timesteps
        cfg.num_train_timesteps)).length = cfg.num_train_timesteps := by
      rw [castList_length, buildTimestepsQ_length]
    have hne : castList (buildTimestepsQ cfg.num_train_timesteps
        cfg.num_train_timesteps) ≠ [] := by
      intro hc
      rw [hc] at hlen
      simp at hlen
      omega
    rw [dupTimesteps_length _ hne, hlen]
  · -- sigma length 2T
    show (dupSigmas (rebuiltBase _ cfg.num_train_timesteps cfg.num_train_timesteps)).length =
      2 * cfg.num_train_timesteps
    unfold rebuiltBase
    have hyl : ((buildTimestepsQ cfg.num_train_timesteps cfg.num_train_timesteps).map
        (fun t => interpGrid (trainSigmasOf (cumprod ((castList (npLinspace cfg.beta_start
          cfg.beta_end cfg.num_train_timesteps)).map (fun b => 1 - b)))) t)).length =
        cfg.num_train_timesteps := by
      rw [List.length_map, buildTimestepsQ_length]
    have hyne : (buildTimestepsQ cfg.num_train_timesteps cfg.num_train_timesteps).map
        (fun t => interpGrid (trainSigmasOf (cumprod ((castList (npLinspace cfg.beta_start
          cfg.beta_end cfg.num_train_timesteps)).map (fun b => 1 - b)))) t) ≠ [] := by
      intro hc
      rw [hc] at hyl
      simp at hyl
      omega
    rw [dupSigmas_concat_length _ _ hyne, hyl]
  · -- every training timestep value resolves in the schedule
    intro k hkT
    have hmemq : ((k : ℚ)) ∈ buildTimestepsQ cfg.num_train_timesteps
        cfg.num_train_timesteps := by
      rw [buildTimestepsQ_self, List.mem_reverse, List.mem_map]
      exact ⟨k, List.mem_range.mpr hkT, rfl⟩
    have hmem : ((k : ℝ)) ∈ dupTimesteps (castList (buildTimestepsQ
        cfg.num_train_timesteps cfg.num_train_timesteps)) := by
      rw [mem_dupTimesteps]
      rw [show ((k : ℝ)) = (((k : ℚ) : ℝ)) from by push_cast; rfl]
      exact mem_castList.mpr hmemq
    refine ⟨?_, ?_, ?_⟩
    · intro mo x
      exact step_ne_lookupError (indexForTimestep_isSome none hmem)
    · intro orig noise
      exact addNoise_single_isSome (indexForTimestep_isSome (some _) hmem)
    · intro x
      exact scaleModelInput_isSome (indexForTimestep_isSome none hmem)

theorem heun_init_populates_witness :
    ∃ s, mkScheduler demoCfg = Except.ok s ∧
      s.timesteps = dupTimesteps (castList (buildTimestepsQ demoCfg.num_train_timesteps
        demoCfg.num_train_timesteps)) ∧
      s.timesteps.length = 2 * demoCfg.num_train_timesteps - 1 ∧
      s.sigmas.length = 2 * demoCfg.num_train_timesteps ∧
      s.dt = none ∧
      ∀ k : ℕ, k < demoCfg.num_train_timesteps →
        (∀ mo x : ℝ, step s mo ((k : ℝ)) x ≠ Except.error SchedErr.lookupError) ∧
        (∀ orig noise : ℝ, (addNoise s orig noise [((k : ℝ))]).isSome = true) ∧
        (∀ x : ℝ, (scaleModelInput s x ((k : ℝ))).isSome = true) :=
  heun_init_populates demoCfg rfl rfl rfl (by decide)


/-! ### Claim theorems: monotone noise schedule for all beta-schedule kinds -/

theorem alphaBarFn_pos {t : ℝ} (h0 : 0 ≤ t) (h1 : t < 1) : 0 < alphaBarFn t := by
  unfold alphaBarFn
  have hpi := Real.pi_div_two_pos
  have hu1 : (t + 0.008) / 1.008 * (Real.pi / 2) < Real.pi / 2 := by
    have hq : (t + 0.008) / 1.008 < 1 := by
      rw [div_lt_one (by norm_num)]
      linarith
    nlinarith
  have hu0 : 0 ≤ (t + 0.008) / 1.008 * (Real.pi / 2) := by positivity
  have hcos : 0 < Real.cos ((t + 0.008) / 1.008 * (Real.pi / 2)) :=
    Real.cos_pos_of_mem_Ioo ⟨by linarith, hu1⟩
  positivity

theorem alphaBarFn_strict_anti {a b : ℝ} (ha : 0 ≤ a) (hab : a < b) (hb : b ≤ 1) :
    alphaBarFn b < alphaBarFn a := by
  unfold alphaBarFn
  have hpi := Real.pi_div_two_pos
  have hua0 : 0 ≤ (a + 0.008) / 1.008 * (Real.pi / 2) := by positivity
  have hubtop : (b + 0.008) / 1.008 * (Real.pi / 2) ≤ Real.pi / 2 := by
    have hq : (b + 0.008) / 1.008 ≤ 1 := by
      rw [div_le_one (by norm_num)]
      linarith
    nlinarith
  have hmono : (a + 0.008) / 1.008 * (Real.pi / 2) < (b + 0.008) / 1.008 * (Real.pi / 2) := by
    have hd : (a + 0.008) / 1.008 < (b + 0.008) / 1.008 := by
      rw [div_lt_div_right (by norm_num)]
      linarith
    exact mul_lt_mul_of_pos_right hd hpi
  have hcoslt : Real.cos ((b + 0.008) / 1.008 * (Real.pi / 2)) <
      Real.cos ((a + 0.008) / 1.008 * (Real.pi / 2)) :=
    Real.cos_lt_cos_of_nonneg_of_le_pi hua0 (by linarith) hmono
  have hcosb : 0 ≤ Real.cos ((b + 0.008) / 1.008 * (Real.pi / 2)) :=
    Real.cos_nonneg_of_mem_Icc ⟨by linarith, hubtop⟩
  rw [pow_two, pow_two]
  exact mul_self_lt_mul_self hcosb hcoslt

theorem betasForAlphaBar_mem_01 {n : ℕ} {x : ℝ} (hx : x ∈ betasForAlphaBar n 0.999) :
    0 < x ∧ x < 1 := by
  unfold betasForAlphaBar at hx
  rw [List.mem_map] at hx
  obtain ⟨i, hi, rfl⟩ := hx
  rw [List.mem_range] at hi
  have hn : 1 ≤ n := by omega
  have hnR : (1 : ℝ) ≤ (n : ℝ) := by exact_mod_cast hn
  have hiR : ((i : ℝ)) < (n : ℝ) := by exact_mod_cast hi
  have ht10 : 0 ≤ (i : ℝ) / (n : ℝ) := by positivity
  have ht11 : (i : ℝ) / (n : ℝ) < 1 := by
    rw [div_lt_one (by linarith)]
    exact hiR
  have ht2 : ((i : ℝ) + 1) / (n : ℝ) ≤ 1 := by
    rw [div_le_one (by linarith)]
    have h1 : i + 1 ≤ n := hi
    exact_mod_cast h1
  have htlt : (i : ℝ) / (n : ℝ) < ((i : ℝ) + 1) / (n : ℝ) := by
    rw [div_lt_div_right (by linarith)]
    linarith
  have hab1 : 0 < alphaBarFn ((i : ℝ) / (n : ℝ)) := alphaBarFn_pos ht10 ht11
  have hablt : alphaBarFn (((i : ℝ) + 1) / (n : ℝ)) < alphaBarFn ((i : ℝ) / (n : ℝ)) :=
    alphaBarFn_strict_anti ht10 htlt ht2
  have hab2nn : 0 ≤ alphaBarFn (((i : ℝ) + 1) / (n : ℝ)) := by
    unfold alphaBarFn
    positivity
  have hratio1 : alphaBarFn (((i : ℝ) + 1) / (n : ℝ)) / alphaBarFn ((i : ℝ) / (n : ℝ)) < 1 := by
    rw [div_lt_one hab1]
    exact hablt
  have hratio0 : 0 ≤ alphaBarFn (((i : ℝ) + 1) / (n : ℝ)) / alphaBarFn ((i : ℝ) / (n : ℝ)) := by
    positivity
  constructor
  · exact lt_min (by linarith) (by norm_num)
  · have hle : min (1 - alphaBarFn (((i : ℝ) + 1) / (n : ℝ)) /
        alphaBarFn ((i : ℝ) / (n : ℝ))) (0.999 : ℝ) ≤ (0.999 : ℝ) := min_le_right _ _
    linarith

/-- Claim C9: for each supported `beta_schedule` kind with
`0 < beta_start ≤ beta_end < 1`, the derived betas have length exactly
`num_train_timesteps` with every value in `(0, 1)`, the cumulative alpha
product is monotonically non-increasing, and the derived training sigmas
`sqrt((1 - alphas_cumprod) / alphas_cumprod)` are non-negative and strictly
increasing with the timestep index. -/
theorem heun_schedule_monotone (cfg : HeunConfig) (b : List ℝ)
    (htb : cfg.trained_betas = none)
    (hsched : cfg.beta_schedule = "linear" ∨ cfg.beta_schedule = "scaled_linear" ∨
      cfg.beta_schedule = "squaredcos_cap_v2")
    (hbs : 0 < cfg.beta_start) (hbe : cfg.beta_start ≤ cfg.beta_end)
    (hb1 : cfg.beta_end < 1)
    (hb : betasOf cfg = Except.ok b) :
    b.length = cfg.num_train_timesteps ∧
    (∀ x ∈ b, 0 < x ∧ x < 1) ∧
    (cumprod (b.map (fun x => 1 - x))).Sorted (· ≥ ·) ∧
    (∀ y ∈ trainSigmasOf (cumprod (b.map (fun x => 1 - x))), 0 ≤ y) ∧
    (trainSigmasOf (cumprod (b.map (fun x => 1 - x)))).Pairwise (· < ·) := by
  have hkey : b.length = cfg.num_train_timesteps ∧ ∀ x ∈ b, 0 < x ∧ x < 1 := by
    rcases hsched with h | h | h
    · -- linear: entries between beta_start and beta_end
      have hbeq : b = castList (npLinspace cfg.beta_start cfg.beta_end
          cfg.num_train_timesteps) := by
        unfold betasOf at hb
        rw [htb, if_pos h] at hb
        exact (Except.ok.inj hb).symm
      subst hbeq
      refine ⟨by rw [castList_length, npLinspace_length], ?_⟩
      intro x hx
      obtain ⟨q, hq, rfl⟩ := List.mem_map.mp hx
      obtain ⟨hql, hqu⟩ := npLinspace_mem_le hbe hq
      constructor
      · have hq0 : (0 : ℚ) < q := lt_of_lt_of_le hbs hql
        exact_mod_cast hq0
      · have hq1 : q < 1 := lt_of_le_of_lt hqu hb1
        exact_mod_cast hq1
    · -- scaled linear: squares of entries between sqrt(beta_start) and
      -- sqrt(beta_end)
      have hbeq : b = (npLinspace (Real.sqrt (cfg.beta_start : ℝ))
          (Real.sqrt (cfg.beta_end : ℝ)) cfg.num_train_timesteps).map (fun x => x ^ 2) := by
        unfold betasOf at hb
        rw [htb, if_neg (by rw [h]; decide), if_pos h] at hb
        exact (Except.ok.inj hb).symm
      subst hbeq
      refine ⟨by rw [List.length_map, npLinspace_length], ?_⟩
      intro x hx
      obtain ⟨y, hy, rfl⟩ := List.mem_map.mp hx
      have hbsR : (0 : ℝ) < ((cfg.beta_start : ℚ) : ℝ) := by exact_mod_cast hbs
      have hbeR : ((cfg.beta_start : ℚ) : ℝ) ≤ ((cfg.beta_end : ℚ) : ℝ) := by
        exact_mod_cast hbe
      have hb1R : ((cfg.beta_end : ℚ) : ℝ) < 1 := by exact_mod_cast hb1
      have hsle : Real.sqrt ((cfg.beta_start : ℚ) : ℝ) ≤
          Real.sqrt ((cfg.beta_end : ℚ) : ℝ) := Real.sqrt_le_sqrt hbeR
      obtain ⟨hyl, hyu⟩ := npLinspace_mem_le hsle hy
      have hy0 : 0 < y := lt_of_lt_of_le (Real.sqrt_pos.mpr hbsR) hyl
      constructor
      · positivity
      · have hsb1 : Real.sqrt ((cfg.beta_end : ℚ) : ℝ) < 1 := by
          have hlt := Real.sqrt_lt_sqrt (le_of_lt (lt_of_lt_of_le hbsR hbeR)) hb1R
          rwa [Real.sqrt_one] at hlt
        exact pow_lt_one (le_of_lt hy0) (lt_of_le_of_lt hyu hsb1) (by norm_num)
    · -- cosine: entries min(1 - alpha_bar ratio, 0.999)
      have hbeq : b = betasForAlphaBar cfg.num_train_timesteps 0.999 := by
        unfold betasOf at hb
        rw [htb, if_neg (by rw [h]; decide), if_neg (by rw [h]; decide), if_pos h] at hb
        exact (Except.ok.inj hb).symm
      subst hbeq
      constructor
      · unfold betasForAlphaBar
        rw [List.length_map, List.length_range]
      · intro x hx
        exact betasForAlphaBar_mem_01 hx
  obtain ⟨hlen, h01⟩ := hkey
  have halphas : ∀ a ∈ b.map (fun x => 1 - x), 0 < a ∧ a < 1 := by
    intro a ha
    obtain ⟨x, hx, rfl⟩ := List.mem_map.mp ha
    obtain ⟨hx0, hx1⟩ := h01 x hx
    exact ⟨by linarith, by linarith⟩
  have hacp := cumprod_pairwise_gt halphas
  have hac01 := cumprod_mem_of_unit halphas
  exact ⟨hlen, h01, hacp.imp (fun hab => le_of_lt hab), trainSigmasOf_nonneg _,
    trainSigmasOf_pairwise_lt hacp hac01⟩

theorem heun_schedule_monotone_witness :
    betasOf demoCfg = Except.ok (castList (npLinspace demoCfg.beta_start demoCfg.beta_end
      demoCfg.num_train_timesteps)) ∧
    ((castList (npLinspace demoCfg.beta_start demoCfg.beta_end
        demoCfg.num_train_timesteps)).length = demoCfg.num_train_timesteps ∧
      (∀ x ∈ castList (npLinspace demoCfg.beta_start demoCfg.beta_end
        demoCfg.num_train_timesteps), 0 < x ∧ x < 1) ∧
      (cumprod ((castList (npLinspace demoCfg.beta_start demoCfg.beta_end
        demoCfg.num_train_timesteps)).map (fun x => 1 - x))).Sorted (· ≥ ·) ∧
      (∀ y ∈ trainSigmasOf (cumprod ((castList (npLinspace demoCfg.beta_start
        demoCfg.beta_end demoCfg.num_train_timesteps)).map (fun x => 1 - x))), 0 ≤ y) ∧
      (trainSigmasOf (cumprod ((castList (npLinspace demoCfg.beta_start demoCfg.beta_end
        demoCfg.num_train_timesteps)).map (fun x => 1 - x)))).Pairwise (· < ·)) := by
  have hb : betasOf demoCfg = Except.ok (castList (npLinspace demoCfg.beta_start
      demoCfg.beta_end demoCfg.num_train_timesteps)) := rfl
  refine ⟨hb, heun_schedule_monotone demoCfg _ rfl (Or.inl rfl) ?_ ?_ ?_ hb⟩
  · show (0 : ℚ) < 1/2
    norm_num
  · show (1/2 : ℚ) ≤ 1/2
    norm_num
  · show (1/2 : ℚ) < 1
    norm_num
